import Mathlib

set_option maxRecDepth 16384

/-!
Shallow embedding of the room-based signaling relay server (src/server.js).

The server keeps a process-wide registry of rooms (a JS object mapping
room ids to room records) and a per-connection record stored on the
websocket object.  Every inbound message is handled synchronously; the
handler mutates the registry and the connection records and emits a list
of outbound sends.  We model:

  - connection records (Conn) keyed by an abstract object reference
    (ConnRef, a Nat standing for the ws object identity);
  - room records (Room) whose sockets field is the JS Set of member
    references, in insertion order;
  - the registry and connection table as association lists in insertion
    order (JS objects enumerate string keys in insertion order);
  - each message handler as a pure function from the server state and
    the sending connection reference to a new state plus the list of
    (recipient, message) sends it performs, in order;
  - the list-rooms handler in the Except monad, because its tag filter
    calls toLowerCase on stored tag values and throws on non-strings.

JS truthiness on the string fields the code reads with the || operator
is modeled explicitly (empty string is falsy).
-/

/-- A JSON leaf value, as far as the server inspects one.  Room tags are
stored unvalidated, so a tag may be any of these. -/
inductive JVal where
  | jstr (s : String)
  | jnum (n : Int)
  | jbool (b : Bool)
  | jnull
deriving DecidableEq

/-- Character-wise lowercasing (JS String.prototype.toLowerCase for the
code points the server ever compares). -/
def strToLower (s : String) : String := ⟨s.data.map Char.toLower⟩

/-- JS String.prototype.slice(0, n). -/
def strTake (n : Nat) (s : String) : String := ⟨s.data.take n⟩

/-- JS String.prototype.trim: strip whitespace from both ends. -/
def strTrim (s : String) : String :=
  ⟨((s.data.dropWhile Char.isWhitespace).reverse.dropWhile Char.isWhitespace).reverse⟩

/-- JS value.toLowerCase(): defined on strings, throws a TypeError on
numbers, booleans and null (they have no such method). -/
def jvalToLower : JVal → Option String
  | JVal.jstr s => some (strToLower s)
  | _ => none

/-- JS a || b for strings: a unless a is falsy (empty). -/
def jsOrStr (a b : String) : String :=
  if a = "" then b else a

/-- JS a || b where a is an optional string (absent or present). -/
def jsOrOpt (a : Option String) (b : String) : String :=
  match a with
  | some s => jsOrStr s b
  | none => b

/-- Truthiness of an optional string value: an absent or empty string is
falsy and collapses to none. -/
def jsTruthy (a : Option String) : Option String :=
  match a with
  | some s => if s = "" then none else some s
  | none => none

/-- JS a || b for two optional strings (leave-room: data.roomId ||
ws.currentRoomId): b when a is falsy. -/
def jsOrOptOpt (a b : Option String) : Option String :=
  match jsTruthy a with
  | some r => some r
  | none => b

/-- Abstract reference to a websocket object (JS object identity). -/
abbrev ConnRef := Nat

/-- Role strings assigned by the server: 'host' or 'listener'. -/
inductive Role where
  | host
  | listener
deriving DecidableEq

/-- Per-connection state stored on the ws object by the server.
wid is the ws.id wire identifier (a random string); isOpen models
readyState === WebSocket.OPEN. -/
structure Conn where
  wid : String
  role : Role
  displayName : String
  handRaised : Bool
  canSpeak : Bool
  currentRoomId : Option String
  isOpen : Bool
deriving DecidableEq

/-- Fields of a fresh connection, as set in the connection handler. -/
def initConn (wid : String) : Conn :=
  { wid := wid
    role := Role.listener
    displayName := "Anonymous"
    handRaised := false
    canSpeak := false
    currentRoomId := none
    isOpen := true }

/-- A room record: { sockets: Set<ws>, title, tags }.  The sockets set
is modeled as the list of member references in insertion order. -/
structure Room where
  sockets : List ConnRef
  title : String
  tags : List JVal
deriving DecidableEq

/-- The whole server state: the connection table (ws objects that have
connected, in connection order) and the rooms registry object. -/
structure ServerState where
  conns : List (ConnRef × Conn)
  rooms : List (String × Room)
deriving DecidableEq

/-- Lookup in an association list (first entry with the key). -/
def alookup {α β : Type} [DecidableEq α] : List (α × β) → α → Option β
  | [], _ => none
  | (k, v) :: l, k' => if k' = k then some v else alookup l k'

/-- obj[k] = v on a JS object: overwrite in place if the key exists,
otherwise append (insertion order). -/
def aset {α β : Type} [DecidableEq α] : List (α × β) → α → β → List (α × β)
  | [], k, v => [(k, v)]
  | (k0, v0) :: l, k, v => if k = k0 then (k, v) :: l else (k0, v0) :: aset l k v

/-- Update the value stored at a key, if present. -/
def aupd {α β : Type} [DecidableEq α] (f : β → β) : List (α × β) → α → List (α × β)
  | [], _ => []
  | (k0, v0) :: l, k => if k = k0 then (k0, f v0) :: l else (k0, v0) :: aupd f l k

/-- delete obj[k] on a JS object. -/
def adel {α β : Type} [DecidableEq α] : List (α × β) → α → List (α × β)
  | [], _ => []
  | (k0, v0) :: l, k => if k = k0 then adel l k else (k0, v0) :: adel l k

/-- Set.add: appends unless already present (JS Sets keep first
insertion position). -/
def setAdd (l : List ConnRef) (c : ConnRef) : List ConnRef :=
  if c ∈ l then l else l ++ [c]

/-- Set.delete: removes the element. -/
def setDel (l : List ConnRef) (c : ConnRef) : List ConnRef :=
  l.filter (fun x => x ≠ c)

/-- Does the member reference resolve to an open socket? -/
def memberOpen (conns : List (ConnRef × Conn)) (m : ConnRef) : Bool :=
  match alookup conns m with
  | some mc => mc.isOpen
  | none => false

/-- Does the member reference resolve to an open socket with role host? -/
def memberHostOpen (conns : List (ConnRef × Conn)) (m : ConnRef) : Bool :=
  match alookup conns m with
  | some mc => decide (mc.role = Role.host) && mc.isOpen
  | none => false

/-- Does the member reference resolve to a socket whose wire id is u? -/
def memberWidIs (conns : List (ConnRef × Conn)) (m : ConnRef) (u : String) : Bool :=
  match alookup conns m with
  | some mc => decide (mc.wid = u)
  | none => false

/-- Inbound envelopes, by their type discriminator.  Optional string
fields model absent-or-any-falsy payload fields; the tags field of
create-room is some list exactly when Array.isArray(data.tags). -/
inductive ClientMsg where
  | listRooms (tag : Option String)
  | setName (name : Option String)
  | createRoom (roomId : String) (title : Option String) (tags : Option (List JVal))
  | joinRoom (roomId : String)
  | leaveRoom (roomId : Option String)
  | raiseHand (raised : Bool)
  | allowSpeak (userId : String) (allowed : Bool)
  | hostMuteAudio (userId : String) (allowed : Bool)
  | hostHideVideo (userId : String) (allowed : Bool)
  | chatMessage (text : String) (name : Option String)
  | signal (kind : Nat) (toId : Option String) (payload : String)
deriving DecidableEq

/-- One entry of the room-peers snapshot: { id, name }. -/
structure PeerInfo where
  pid : String
  pname : String
deriving DecidableEq

/-- One entry of the rooms-list reply. -/
structure RoomSummary where
  roomId : String
  title : String
  tags : List JVal
  participantCount : Nat
deriving DecidableEq

/-- Outbound envelopes sent by the server. -/
inductive ServerMsg where
  | roomsList (rooms : List RoomSummary)
  | nameUpdated (userId : String) (name : String)
  | createRoomAck (roomId : String) (title : String) (tags : List JVal)
  | joinRoomAck (roomId : String)
  | roomPeers (peers : List PeerInfo)
  | peerJoined (userId : String) (name : String)
  | leaveRoomMsg (roomId : String)
  | handUpdated (userId : String) (raised : Bool)
  | speakPermission (allowed : Bool)
  | speakPermissionUpdated (userId : String) (allowed : Bool)
  | remoteAudioControl (allowed : Bool)
  | remoteVideoControl (allowed : Bool)
  | chatMsg (text : String) (name : String)
  | signalMsg (kind : Nat) (fromId : String) (payload : String)
deriving DecidableEq

/-- An ordered list of sends: send(recipient, message). -/
abbrev Outbox := List (ConnRef × ServerMsg)

deriving instance DecidableEq for Except

/-- The per-room summaries built by the list-rooms handler before
filtering: { roomId, title: room.title || roomId, tags, participantCount }. -/
def roomSummaries (rooms : List (String × Room)) : List RoomSummary :=
  rooms.map (fun p =>
    { roomId := p.1
      title := jsOrStr p.2.title p.1
      tags := p.2.tags
      participantCount := p.2.sockets.length })

/-- r.tags.some(t => t.toLowerCase() === tagFilter): scans the tags in
order and throws (error) at the first tag with no toLowerCase method. -/
def tagsSomeMatch (f : String) : List JVal → Except Unit Bool
  | [] => Except.ok false
  | t :: ts =>
    match jvalToLower t with
    | none => Except.error ()
    | some s => if s = f then Except.ok true else tagsSomeMatch f ts

/-- list.filter(r => r.tags.some(...)): keeps the summaries with a
matching tag, propagating the first TypeError thrown by the predicate. -/
def filterByTag (f : String) : List RoomSummary → Except Unit (List RoomSummary)
  | [] => Except.ok []
  | r :: rs =>
    match tagsSomeMatch f r.tags with
    | Except.error e => Except.error e
    | Except.ok b =>
      match filterByTag f rs with
      | Except.error e => Except.error e
      | Except.ok rest => Except.ok (if b then r :: rest else rest)

/-- room.sockets.forEach(client => if open then client.send(msg)):
the sends performed by broadcastToRoom, in member order. -/
def broadcastList (conns : List (ConnRef × Conn)) (sockets : List ConnRef)
    (msg : ServerMsg) : Outbox :=
  sockets.filterMap (fun m => if memberOpen conns m then some (m, msg) else none)

/-- Array.from(room.sockets).map(s => ({ id: s.id, name: s.displayName
|| 'Anonymous' })): the existing-peers snapshot of join-room. -/
def peersOf (conns : List (ConnRef × Conn)) (sockets : List ConnRef) : List PeerInfo :=
  sockets.filterMap (fun m =>
    (alookup conns m).map (fun mc =>
      { pid := mc.wid, pname := jsOrStr mc.displayName "Anonymous" }))

/-- Connection fields set by the create-room handler on the sender. -/
def enterAsHost (rid : String) (x : Conn) : Conn :=
  { x with currentRoomId := some rid, role := Role.host, handRaised := false, canSpeak := true }

/-- Connection fields set by the join-room handler on the sender. -/
def enterAsListener (rid : String) (x : Conn) : Conn :=
  { x with currentRoomId := some rid, role := Role.listener, handRaised := false, canSpeak := false }

/-- Connection fields reset by the leave-room handler on the sender. -/
def resetMembership (x : Conn) : Conn :=
  { x with currentRoomId := none, role := Role.listener, handRaised := false, canSpeak := false }

/-- The allow-speak forEach over room.sockets: for every member whose
id matches and whose socket is open, set canSpeak and send the two
notifications.  The connection table is threaded because the loop
mutates it in place. -/
def allowSpeakLoop (c : ConnRef) (userId : String) (allowed : Bool) :
    List ConnRef → List (ConnRef × Conn) → List (ConnRef × Conn) × Outbox
  | [], conns => (conns, [])
  | m :: ms, conns =>
    match alookup conns m with
    | none => allowSpeakLoop c userId allowed ms conns
    | some mc =>
      if mc.wid = userId ∧ mc.isOpen = true then
        let conns1 := aupd (fun x => { x with canSpeak := allowed }) conns m
        let r := allowSpeakLoop c userId allowed ms conns1
        (r.1, (m, ServerMsg.speakPermission allowed)
                :: (c, ServerMsg.speakPermissionUpdated userId allowed) :: r.2)
      else allowSpeakLoop c userId allowed ms conns

/-- The host-mute-audio / host-hide-video forEach over room.sockets:
no state change, only sends to each matching open member (and, for the
mute variant, the speak-permission-updated ack to the host). -/
def hostCtlLoop (c : ConnRef) (userId : String) (allowed : Bool) (mute : Bool)
    (conns : List (ConnRef × Conn)) : List ConnRef → Outbox
  | [] => []
  | m :: ms =>
    match alookup conns m with
    | none => hostCtlLoop c userId allowed mute conns ms
    | some mc =>
      if mc.wid = userId ∧ mc.isOpen = true then
        (if mute then
          [(m, ServerMsg.remoteAudioControl allowed),
           (c, ServerMsg.speakPermissionUpdated userId allowed)]
         else [(m, ServerMsg.remoteVideoControl allowed)])
          ++ hostCtlLoop c userId allowed mute conns ms
      else hostCtlLoop c userId allowed mute conns ms

/-- The per-member decision of the offer/answer/ice-candidate relay
forEach: skip the sender and non-open sockets; with a target id deliver
only to members whose id matches; otherwise deliver to every other
member. -/
def relayFilter (c : ConnRef) (conns : List (ConnRef × Conn)) (targetId : Option String)
    (kind : Nat) (wid payload : String) (m : ConnRef) : Option (ConnRef × ServerMsg) :=
  if m = c then none
  else if memberOpen conns m then
    match targetId with
    | some t =>
      if memberWidIs conns m t then some (m, ServerMsg.signalMsg kind wid payload)
      else none
    | none => some (m, ServerMsg.signalMsg kind wid payload)
  else none

/-- The message handler: dispatch on data.type.  Returns the new server
state and the ordered sends, or error when the handler throws (only the
list-rooms tag filter can throw). -/
def handleMsg (s : ServerState) (c : ConnRef) (m : ClientMsg) :
    Except Unit (ServerState × Outbox) :=
  match alookup s.conns c with
  | none => Except.ok (s, [])
  | some ws =>
    match m with
    | ClientMsg.listRooms tag =>
      let tagFilter := (jsTruthy tag).map strToLower
      let summaries := roomSummaries s.rooms
      match tagFilter with
      | none => Except.ok (s, [(c, ServerMsg.roomsList summaries)])
      | some f =>
        match filterByTag f summaries with
        | Except.error e => Except.error e
        | Except.ok l => Except.ok (s, [(c, ServerMsg.roomsList l)])
    | ClientMsg.setName name =>
      let nm := strTake 40 (strTrim (name.getD ""))
      let dn := if nm = "" then "Anonymous" else nm
      let conns1 := aupd (fun x => { x with displayName := dn }) s.conns c
      let out :=
        match jsTruthy ws.currentRoomId with
        | some rid =>
          match alookup s.rooms rid with
          | some room => broadcastList conns1 room.sockets (ServerMsg.nameUpdated ws.wid dn)
          | none => []
        | none => []
      Except.ok ({ s with conns := conns1 }, out)
    | ClientMsg.createRoom roomId title tags =>
      let title := jsOrOpt title roomId
      let tags := tags.getD []
      let room := (alookup s.rooms roomId).getD { sockets := [], title := title, tags := tags }
      let rooms1 := aset s.rooms roomId { room with sockets := setAdd room.sockets c }
      let conns1 := aupd (enterAsHost roomId) s.conns c
      Except.ok (⟨conns1, rooms1⟩, [(c, ServerMsg.createRoomAck roomId title tags)])
    | ClientMsg.joinRoom roomId =>
      let room := (alookup s.rooms roomId).getD { sockets := [], title := roomId, tags := [] }
      let peers := peersOf s.conns room.sockets
      let rooms1 := aset s.rooms roomId { room with sockets := setAdd room.sockets c }
      let conns1 := aupd (enterAsListener roomId) s.conns c
      let notifies := (setAdd room.sockets c).filterMap (fun m =>
        if m = c then none
        else if memberOpen conns1 m then some (m, ServerMsg.peerJoined ws.wid ws.displayName)
        else none)
      Except.ok (⟨conns1, rooms1⟩,
        (c, ServerMsg.joinRoomAck roomId) :: (c, ServerMsg.roomPeers peers) :: notifies)
    | ClientMsg.leaveRoom roomId =>
      let conns1 := aupd resetMembership s.conns c
      let effective := jsTruthy (jsOrOptOpt roomId ws.currentRoomId)
      match effective with
      | none => Except.ok ({ s with conns := conns1 }, [])
      | some rid =>
        match alookup s.rooms rid with
        | none => Except.ok ({ s with conns := conns1 }, [])
        | some room =>
          let sockets1 := setDel room.sockets c
          if sockets1 = [] then Except.ok (⟨conns1, adel s.rooms rid⟩, [])
          else Except.ok (⟨conns1, aset s.rooms rid { room with sockets := sockets1 }⟩,
            broadcastList conns1 sockets1 (ServerMsg.leaveRoomMsg rid))
    | ClientMsg.raiseHand raised =>
      match jsTruthy ws.currentRoomId with
      | none => Except.ok (s, [])
      | some rid =>
        match alookup s.rooms rid with
        | none => Except.ok (s, [])
        | some room =>
          let conns1 := aupd (fun x => { x with handRaised := raised }) s.conns c
          let out := room.sockets.filterMap (fun m =>
            if memberHostOpen conns1 m then some (m, ServerMsg.handUpdated ws.wid raised)
            else none)
          Except.ok ({ s with conns := conns1 }, out)
    | ClientMsg.allowSpeak userId allowed =>
      match jsTruthy ws.currentRoomId with
      | none => Except.ok (s, [])
      | some rid =>
        match alookup s.rooms rid with
        | none => Except.ok (s, [])
        | some room =>
          if ws.role = Role.host then
            let r := allowSpeakLoop c userId allowed room.sockets s.conns
            Except.ok ({ s with conns := r.1 }, r.2)
          else Except.ok (s, [])
    | ClientMsg.hostMuteAudio userId allowed =>
      match jsTruthy ws.currentRoomId with
      | none => Except.ok (s, [])
      | some rid =>
        match alookup s.rooms rid with
        | none => Except.ok (s, [])
        | some room =>
          if ws.role = Role.host then
            Except.ok (s, hostCtlLoop c userId allowed true s.conns room.sockets)
          else Except.ok (s, [])
    | ClientMsg.hostHideVideo userId allowed =>
      match jsTruthy ws.currentRoomId with
      | none => Except.ok (s, [])
      | some rid =>
        match alookup s.rooms rid with
        | none => Except.ok (s, [])
        | some room =>
          if ws.role = Role.host then
            Except.ok (s, hostCtlLoop c userId allowed false s.conns room.sockets)
          else Except.ok (s, [])
    | ClientMsg.chatMessage text name =>
      match jsTruthy ws.currentRoomId with
      | none => Except.ok (s, [])
      | some rid =>
        match alookup s.rooms rid with
        | none => Except.ok (s, [])
        | some room =>
          let nm := jsOrOpt name (jsOrStr ws.displayName "Anonymous")
          Except.ok (s, broadcastList s.conns room.sockets (ServerMsg.chatMsg text nm))
    | ClientMsg.signal kind toId payload =>
      match jsTruthy ws.currentRoomId with
      | none => Except.ok (s, [])
      | some rid =>
        match alookup s.rooms rid with
        | none => Except.ok (s, [])
        | some room =>
          let targetId := jsTruthy toId
          let out := room.sockets.filterMap (relayFilter c s.conns targetId kind ws.wid payload)
          Except.ok (s, out)

/-- The close handler: the socket is no longer open (readyState left
OPEN before the close event fires), then the ws is removed from its
current room, the room deleted if now empty else the remaining members
are told leave-room.  The handler does not reset currentRoomId or the
role/permission flags. -/
def handleClose (s : ServerState) (c : ConnRef) : ServerState × Outbox :=
  match alookup s.conns c with
  | none => (s, [])
  | some ws =>
    let conns1 := aupd (fun x => { x with isOpen := false }) s.conns c
    match jsTruthy ws.currentRoomId with
    | none => ({ s with conns := conns1 }, [])
    | some rid =>
      match alookup s.rooms rid with
      | none => ({ s with conns := conns1 }, [])
      | some room =>
        let sockets1 := setDel room.sockets c
        if sockets1 = [] then (⟨conns1, adel s.rooms rid⟩, [])
        else (⟨conns1, aset s.rooms rid { room with sockets := sockets1 }⟩,
          broadcastList conns1 sockets1 (ServerMsg.leaveRoomMsg rid))

/-- Reachable server states: the empty state, a new connection (fresh
object reference, fresh wire id drawn at random), a message handled for
an open connection (a throwing handler crashes the process, so only the
ok outcome yields a successor state), and a transport close. -/
inductive Reachable : ServerState → Prop where
  | init : Reachable ⟨[], []⟩
  | connect (s : ServerState) (c : ConnRef) (wid : String) :
      Reachable s → alookup s.conns c = none →
      Reachable ⟨s.conns ++ [(c, initConn wid)], s.rooms⟩
  | message (s s' : ServerState) (c : ConnRef) (conn : Conn) (m : ClientMsg) (out : Outbox) :
      Reachable s → alookup s.conns c = some conn → conn.isOpen = true →
      handleMsg s c m = Except.ok (s', out) → Reachable s'
  | closeStep (s : ServerState) (c : ConnRef) (conn : Conn) :
      Reachable s → alookup s.conns c = some conn → conn.isOpen = true →
      Reachable (handleClose s c).1

section ALemmas

variable {α β : Type} [DecidableEq α]

theorem alookup_aset_self (l : List (α × β)) (k : α) (v : β) :
    alookup (aset l k v) k = some v := by
  induction l with
  | nil => simp [aset, alookup]
  | cons p l ih =>
    obtain ⟨k0, v0⟩ := p
    by_cases h : k = k0
    · simp [aset, h, alookup]
    · simp [aset, h, alookup, ih]

theorem alookup_aset_ne (l : List (α × β)) (k k' : α) (v : β) (h : k' ≠ k) :
    alookup (aset l k v) k' = alookup l k' := by
  induction l with
  | nil => simp [aset, alookup, h]
  | cons p l ih =>
    obtain ⟨k0, v0⟩ := p
    by_cases hk : k = k0
    · subst hk
      simp [aset, alookup, h]
    · by_cases hk' : k' = k0
      · simp [aset, hk, alookup, hk']
      · simp [aset, hk, alookup, hk', ih]

theorem alookup_aupd_self (f : β → β) (l : List (α × β)) (k : α) :
    alookup (aupd f l k) k = (alookup l k).map f := by
  induction l with
  | nil => simp [aupd, alookup]
  | cons p l ih =>
    obtain ⟨k0, v0⟩ := p
    by_cases h : k = k0
    · simp [aupd, h, alookup]
    · simp [aupd, h, alookup, ih]

theorem alookup_aupd_ne (f : β → β) (l : List (α × β)) (k k' : α) (h : k' ≠ k) :
    alookup (aupd f l k) k' = alookup l k' := by
  induction l with
  | nil => simp [aupd, alookup]
  | cons p l ih =>
    obtain ⟨k0, v0⟩ := p
    by_cases hk : k = k0
    · subst hk
      simp [aupd, alookup, h]
    · by_cases hk' : k' = k0
      · simp [aupd, hk, alookup, hk']
      · simp [aupd, hk, alookup, hk', ih]

theorem alookup_adel_self (l : List (α × β)) (k : α) :
    alookup (adel l k) k = none := by
  induction l with
  | nil => simp [adel, alookup]
  | cons p l ih =>
    obtain ⟨k0, v0⟩ := p
    by_cases h : k = k0
    · subst h
      simp [adel, ih]
    · simp [adel, h, alookup, ih, Ne.symm h]

theorem alookup_adel_ne (l : List (α × β)) (k k' : α) (h : k' ≠ k) :
    alookup (adel l k) k' = alookup l k' := by
  induction l with
  | nil => simp [adel, alookup]
  | cons p l ih =>
    obtain ⟨k0, v0⟩ := p
    by_cases hk : k = k0
    · subst hk
      simp [adel, alookup, h, ih]
    · by_cases hk' : k' = k0
      · simp [adel, hk, alookup, hk']
      · simp [adel, hk, alookup, hk', ih]

theorem alookup_append_some (l l' : List (α × β)) (k : α) (v : β)
    (h : alookup l k = some v) : alookup (l ++ l') k = some v := by
  induction l with
  | nil => simp [alookup] at h
  | cons p l ih =>
    obtain ⟨k0, v0⟩ := p
    by_cases hk : k = k0
    · simp [alookup, hk] at h ⊢
      exact h
    · simp [alookup, hk] at h ⊢
      exact ih h

theorem alookup_append_none (l l' : List (α × β)) (k : α)
    (h : alookup l k = none) : alookup (l ++ l') k = alookup l' k := by
  induction l with
  | nil => simp
  | cons p l ih =>
    obtain ⟨k0, v0⟩ := p
    by_cases hk : k = k0
    · simp [alookup, hk] at h
    · simp [alookup, hk] at h ⊢
      exact ih h

end ALemmas

theorem mem_setAdd (l : List ConnRef) (c m : ConnRef) :
    m ∈ setAdd l c ↔ m ∈ l ∨ m = c := by
  unfold setAdd
  by_cases h : c ∈ l
  · simp only [if_pos h]
    constructor
    · exact fun hm => Or.inl hm
    · rintro (hm | rfl)
      · exact hm
      · exact h
  · simp [if_neg h]

theorem setAdd_ne_nil (l : List ConnRef) (c : ConnRef) : setAdd l c ≠ [] := by
  unfold setAdd
  by_cases h : c ∈ l
  · simp only [if_pos h]
    intro hnil
    subst hnil
    simp at h
  · simp [if_neg h]

theorem mem_setDel (l : List ConnRef) (c m : ConnRef) :
    m ∈ setDel l c ↔ m ∈ l ∧ m ≠ c := by
  simp [setDel]

/-- Every room stored in the registry has at least one member. -/
def RoomsNonempty (rooms : List (String × Room)) : Prop :=
  ∀ rid room, alookup rooms rid = some room → room.sockets ≠ []

theorem roomsNonempty_aset {rooms : List (String × Room)} {rid : String} {room : Room}
    (hs : RoomsNonempty rooms) (hne : room.sockets ≠ []) :
    RoomsNonempty (aset rooms rid room) := by
  intro r rm hr
  by_cases h : r = rid
  · subst h
    rw [alookup_aset_self] at hr
    cases hr
    exact hne
  · rw [alookup_aset_ne _ _ _ _ h] at hr
    exact hs r rm hr

theorem roomsNonempty_adel {rooms : List (String × Room)} {rid : String}
    (hs : RoomsNonempty rooms) : RoomsNonempty (adel rooms rid) := by
  intro r rm hr
  by_cases h : r = rid
  · subst h
    rw [alookup_adel_self] at hr
    cases hr
  · rw [alookup_adel_ne _ _ _ h] at hr
    exact hs r rm hr

theorem roomsNonempty_handleMsg {s s' : ServerState} {c : ConnRef} {m : ClientMsg}
    {out : Outbox} (h : handleMsg s c m = Except.ok (s', out))
    (hs : RoomsNonempty s.rooms) : RoomsNonempty s'.rooms := by
  unfold handleMsg at h
  split at h
  · cases h
    exact hs
  · cases m with
    | listRooms tag =>
      dsimp only at h
      split at h
      · cases h
        exact hs
      · split at h
        · cases h
        · cases h
          exact hs
    | setName name =>
      dsimp only at h
      cases h
      exact hs
    | createRoom roomId title tags =>
      dsimp only at h
      cases h
      exact roomsNonempty_aset hs (setAdd_ne_nil _ _)
    | joinRoom roomId =>
      dsimp only at h
      cases h
      exact roomsNonempty_aset hs (setAdd_ne_nil _ _)
    | leaveRoom roomId =>
      dsimp only at h
      split at h
      · cases h
        exact hs
      · split at h
        · cases h
          exact hs
        · split at h
          · cases h
            exact roomsNonempty_adel hs
          · cases h
            rename_i hne
            exact roomsNonempty_aset hs hne
    | raiseHand raised =>
      dsimp only at h
      split at h
      · cases h
        exact hs
      · split at h
        · cases h
          exact hs
        · cases h
          exact hs
    | allowSpeak userId allowed =>
      dsimp only at h
      split at h
      · cases h
        exact hs
      · split at h
        · cases h
          exact hs
        · split at h
          · cases h
            exact hs
          · cases h
            exact hs
    | hostMuteAudio userId allowed =>
      dsimp only at h
      split at h
      · cases h
        exact hs
      · split at h
        · cases h
          exact hs
        · split at h
          · cases h
            exact hs
          · cases h
            exact hs
    | hostHideVideo userId allowed =>
      dsimp only at h
      split at h
      · cases h
        exact hs
      · split at h
        · cases h
          exact hs
        · split at h
          · cases h
            exact hs
          · cases h
            exact hs
    | chatMessage text name =>
      dsimp only at h
      split at h
      · cases h
        exact hs
      · split at h
        · cases h
          exact hs
        · cases h
          exact hs
    | signal kind toId payload =>
      dsimp only at h
      split at h
      · cases h
        exact hs
      · split at h
        · cases h
          exact hs
        · cases h
          exact hs

theorem roomsNonempty_handleClose {s : ServerState} {c : ConnRef}
    (hs : RoomsNonempty s.rooms) : RoomsNonempty (handleClose s c).1.rooms := by
  unfold handleClose
  split
  · exact hs
  · dsimp only
    split
    · exact hs
    · split
      · exact hs
      · split
        · exact roomsNonempty_adel hs
        · rename_i hne
          exact roomsNonempty_aset hs hne

theorem roomsNonempty_reachable {s : ServerState} (h : Reachable s) :
    RoomsNonempty s.rooms := by
  induction h with
  | init =>
    intro rid room hr
    cases hr
  | connect s c wid _ _ ih => exact ih
  | message s s' c conn m out _ _ _ hmsg ih => exact roomsNonempty_handleMsg hmsg ih
  | closeStep s c conn _ _ _ ih => exact roomsNonempty_handleClose ih

/-- The part of a connection record that the membership invariant
reads: its current room pointer and whether the socket is open. -/
def connView (x : Conn) : Option String × Bool :=
  (x.currentRoomId, x.isOpen)

/-- Bidirectional membership coherence plus the absence of the falsy
empty-string room pointer:
  (a) every member of a registered room is an open connection whose
      currentRoomId is that room's id;
  (b) every open connection pointing at a room is a member of a room
      registered under exactly that id;
  (c) no connection points at the empty room id (which the leave and
      close handlers would treat as no room at all). -/
def Coherent (s : ServerState) : Prop :=
  (∀ rid room, alookup s.rooms rid = some room → ∀ m ∈ room.sockets,
    ∃ mc, alookup s.conns m = some mc ∧ mc.isOpen = true ∧ mc.currentRoomId = some rid)
  ∧ (∀ c conn, alookup s.conns c = some conn → conn.isOpen = true →
      ∀ rid, conn.currentRoomId = some rid →
        ∃ room, alookup s.rooms rid = some room ∧ c ∈ room.sockets)
  ∧ (∀ c conn, alookup s.conns c = some conn → conn.currentRoomId ≠ some "")

theorem coherent_congr_conns {conns conns' : List (ConnRef × Conn)}
    {rooms : List (String × Room)}
    (hagree : ∀ k, (alookup conns' k).map connView = (alookup conns k).map connView)
    (h : Coherent ⟨conns, rooms⟩) : Coherent ⟨conns', rooms⟩ := by
  obtain ⟨hA, hB, hC⟩ := h
  refine ⟨?_, ?_, ?_⟩
  · intro rid room hr m hm
    obtain ⟨mc, hmc, hmo, hmr⟩ := hA rid room hr m hm
    have := hagree m
    rw [hmc] at this
    cases hsome : alookup conns' m with
    | none => rw [hsome] at this; cases this
    | some mc' =>
      rw [hsome] at this
      refine ⟨mc', rfl, ?_, ?_⟩
      · have h2 : connView mc' = connView mc := by
          simpa using this
        have := congrArg Prod.snd h2
        simpa [connView, hmo] using this
      · have h2 : connView mc' = connView mc := by
          simpa using this
        have := congrArg Prod.fst h2
        simpa [connView, hmr] using this
  · intro c conn hc hopen rid hrid
    have := hagree c
    rw [hc] at this
    cases hsome : alookup conns c with
    | none => rw [hsome] at this; cases this
    | some conn0 =>
      rw [hsome] at this
      have h2 : connView conn = connView conn0 := by
        simpa using this
      have hfst := congrArg Prod.fst h2
      have hsnd := congrArg Prod.snd h2
      simp only [connView] at hfst hsnd
      exact hB c conn0 hsome (by rw [← hsnd]; exact hopen) rid (by rw [← hfst]; exact hrid)
  · intro c conn hc
    have := hagree c
    rw [hc] at this
    cases hsome : alookup conns c with
    | none => rw [hsome] at this; cases this
    | some conn0 =>
      rw [hsome] at this
      have h2 : connView conn = connView conn0 := by
        simpa using this
      have hfst := congrArg Prod.fst h2
      simp only [connView] at hfst
      rw [hfst]
      exact hC c conn0 hsome

theorem agree_aupd {conns : List (ConnRef × Conn)} {c : ConnRef} (f : Conn → Conn)
    (hf : ∀ x, connView (f x) = connView x) :
    ∀ k, (alookup (aupd f conns c) k).map connView = (alookup conns k).map connView := by
  intro k
  by_cases hk : k = c
  · subst hk
    rw [alookup_aupd_self]
    cases alookup conns k with
    | none => rfl
    | some x => simp [hf]
  · rw [alookup_aupd_ne _ _ _ _ hk]

theorem allowSpeakLoop_agree (c : ConnRef) (userId : String) (allowed : Bool)
    (ms : List ConnRef) (conns : List (ConnRef × Conn)) :
    ∀ k, (alookup (allowSpeakLoop c userId allowed ms conns).1 k).map connView =
         (alookup conns k).map connView := by
  induction ms generalizing conns with
  | nil => intro k; rfl
  | cons m ms ih =>
    intro k
    unfold allowSpeakLoop
    cases hm : alookup conns m with
    | none => exact ih conns k
    | some mc =>
      by_cases hcond : mc.wid = userId ∧ mc.isOpen = true
      · simp only [if_pos hcond]
        have h1 := ih (aupd (fun x => { x with canSpeak := allowed }) conns m) k
        rw [h1]
        exact agree_aupd (fun x => { x with canSpeak := allowed }) (fun x => rfl) k
      · simp only [if_neg hcond]
        exact ih conns k

theorem alookup_append_single_cases {α β : Type} [DecidableEq α]
    {l : List (α × β)} {c k : α} {v w : β}
    (h : alookup (l ++ [(c, v)]) k = some w) :
    alookup l k = some w ∨ (alookup l k = none ∧ k = c ∧ w = v) := by
  cases hl : alookup l k with
  | some w' =>
    rw [alookup_append_some _ _ _ _ hl] at h
    cases h
    exact Or.inl rfl
  | none =>
    rw [alookup_append_none _ _ _ hl] at h
    simp only [alookup] at h
    by_cases hk : k = c
    · rw [if_pos hk] at h
      cases h
      exact Or.inr ⟨rfl, hk, rfl⟩
    · rw [if_neg hk] at h
      cases h

theorem jsTruthy_ne_some_empty (a : Option String) : jsTruthy a ≠ some "" := by
  unfold jsTruthy
  cases a with
  | none => simp
  | some s =>
    by_cases h : s = ""
    · simp [h]
    · simp [h]

theorem ok_pair_inv {A s' : ServerState} {B out : Outbox}
    (h : (Except.ok (A, B) : Except Unit (ServerState × Outbox)) = Except.ok (s', out)) :
    s' = A ∧ out = B := by
  injection h with h'
  injection h' with h1 h2
  exact ⟨h1.symm, h2.symm⟩

theorem coherent_connect {conns : List (ConnRef × Conn)} {rooms : List (String × Room)}
    {c : ConnRef} {wid : String}
    (hco : Coherent ⟨conns, rooms⟩) (hfresh : alookup conns c = none) :
    Coherent ⟨conns ++ [(c, initConn wid)], rooms⟩ := by
  obtain ⟨hA, hB, hC⟩ := hco
  refine ⟨?_, ?_, ?_⟩
  · intro rid room hr m hm
    obtain ⟨mc, hmc, hmo, hmr⟩ := hA rid room hr m hm
    exact ⟨mc, alookup_append_some _ _ _ _ hmc, hmo, hmr⟩
  · intro k conn hk hopen rid hrid
    rcases alookup_append_single_cases hk with hold | ⟨_, _, rfl⟩
    · exact hB k conn hold hopen rid hrid
    · simp [initConn] at hrid
  · intro k conn hk
    rcases alookup_append_single_cases hk with hold | ⟨_, _, rfl⟩
    · exact hC k conn hold
    · simp [initConn]

theorem coherent_enter {conns : List (ConnRef × Conn)} {rooms : List (String × Room)}
    {c : ConnRef} {conn : Conn} {rid : String} {newRoom : Room} (f : Conn → Conn)
    (hco : Coherent ⟨conns, rooms⟩)
    (hc : alookup conns c = some conn)
    (hopen : conn.isOpen = true)
    (hnone : conn.currentRoomId = none)
    (hrid : rid ≠ "")
    (hf : ∀ x, (f x).currentRoomId = some rid ∧ (f x).isOpen = x.isOpen)
    (hsock : ∀ m ∈ newRoom.sockets, m = c ∨ ∃ r0, alookup rooms rid = some r0 ∧ m ∈ r0.sockets)
    (hkeep : ∀ r0, alookup rooms rid = some r0 → ∀ m ∈ r0.sockets, m ∈ newRoom.sockets)
    (hcin : c ∈ newRoom.sockets) :
    Coherent ⟨aupd f conns c, aset rooms rid newRoom⟩ := by
  obtain ⟨hA, hB, hC⟩ := hco
  refine ⟨?_, ?_, ?_⟩
  · intro rid' room' hr' m hm
    by_cases hrr : rid' = rid
    · subst hrr
      rw [alookup_aset_self] at hr'
      simp only [Option.some.injEq] at hr'
      subst hr'
      rcases hsock m hm with rfl | ⟨r0, hr0, hm0⟩
      · refine ⟨f conn, ?_, ?_, (hf conn).1⟩
        · rw [alookup_aupd_self, hc]
          rfl
        · rw [(hf conn).2]
          exact hopen
      · obtain ⟨mc, hmc, hmo, hmr⟩ := hA rid' r0 hr0 m hm0
        have hmc_ne : m ≠ c := by
          intro he
          subst he
          rw [hc] at hmc
          injection hmc with he'
          subst he'
          rw [hnone] at hmr
          cases hmr
        refine ⟨mc, ?_, hmo, hmr⟩
        rw [alookup_aupd_ne _ _ _ _ hmc_ne]
        exact hmc
    · rw [alookup_aset_ne _ _ _ _ hrr] at hr'
      obtain ⟨mc, hmc, hmo, hmr⟩ := hA rid' room' hr' m hm
      have hmc_ne : m ≠ c := by
        intro he
        subst he
        rw [hc] at hmc
        injection hmc with he'
        subst he'
        rw [hnone] at hmr
        cases hmr
      refine ⟨mc, ?_, hmo, hmr⟩
      rw [alookup_aupd_ne _ _ _ _ hmc_ne]
      exact hmc
  · intro k conn' hk hopen' rid'' hrid''
    by_cases hkc : k = c
    · subst hkc
      rw [alookup_aupd_self, hc] at hk
      simp only [Option.map_some'] at hk
      injection hk with he
      subst he
      rw [(hf conn).1] at hrid''
      injection hrid'' with he'
      subst he'
      exact ⟨newRoom, alookup_aset_self _ _ _, hcin⟩
    · rw [alookup_aupd_ne _ _ _ _ hkc] at hk
      obtain ⟨room'', hroom'', hkin⟩ := hB k conn' hk hopen' rid'' hrid''
      by_cases hrr : rid'' = rid
      · subst hrr
        exact ⟨newRoom, alookup_aset_self _ _ _, hkeep room'' hroom'' k hkin⟩
      · refine ⟨room'', ?_, hkin⟩
        rw [alookup_aset_ne _ _ _ _ hrr]
        exact hroom''
  · intro k conn' hk
    by_cases hkc : k = c
    · subst hkc
      rw [alookup_aupd_self, hc] at hk
      simp only [Option.map_some'] at hk
      injection hk with he
      subst he
      rw [(hf conn).1]
      intro he'
      injection he' with he''
      exact hrid he''
    · rw [alookup_aupd_ne _ _ _ _ hkc] at hk
      exact hC k conn' hk

theorem coherent_detached_upd {conns : List (ConnRef × Conn)} {rooms : List (String × Room)}
    {c : ConnRef} {conn : Conn} (g : Conn → Conn)
    (hco : Coherent ⟨conns, rooms⟩)
    (hc : alookup conns c = some conn)
    (hnone : conn.currentRoomId = none)
    (hgB : (g conn).currentRoomId = none ∨ (g conn).isOpen = false)
    (hgC : (g conn).currentRoomId ≠ some "") :
    Coherent ⟨aupd g conns c, rooms⟩ := by
  obtain ⟨hA, hB, hC⟩ := hco
  refine ⟨?_, ?_, ?_⟩
  · intro rid room hr m hm
    obtain ⟨mc, hmc, hmo, hmr⟩ := hA rid room hr m hm
    have hmc_ne : m ≠ c := by
      intro he
      subst he
      rw [hc] at hmc
      injection hmc with he'
      subst he'
      rw [hnone] at hmr
      cases hmr
    refine ⟨mc, ?_, hmo, hmr⟩
    rw [alookup_aupd_ne _ _ _ _ hmc_ne]
    exact hmc
  · intro k conn' hk hopen' rid'' hrid''
    by_cases hkc : k = c
    · subst hkc
      rw [alookup_aupd_self, hc] at hk
      simp only [Option.map_some'] at hk
      injection hk with he
      subst he
      rcases hgB with hgB | hgB
      · rw [hgB] at hrid''
        cases hrid''
      · rw [hgB] at hopen'
        cases hopen'
    · rw [alookup_aupd_ne _ _ _ _ hkc] at hk
      exact hB k conn' hk hopen' rid'' hrid''
  · intro k conn' hk
    by_cases hkc : k = c
    · subst hkc
      rw [alookup_aupd_self, hc] at hk
      simp only [Option.map_some'] at hk
      injection hk with he
      subst he
      exact hgC
    · rw [alookup_aupd_ne _ _ _ _ hkc] at hk
      exact hC k conn' hk

theorem coherent_remove_keep {conns : List (ConnRef × Conn)} {rooms : List (String × Room)}
    {c : ConnRef} {conn : Conn} {rid : String} {room : Room} (g : Conn → Conn)
    (hco : Coherent ⟨conns, rooms⟩)
    (hc : alookup conns c = some conn)
    (hcur : conn.currentRoomId = some rid)
    (hroom : alookup rooms rid = some room)
    (hgB : (g conn).currentRoomId = none ∨ (g conn).isOpen = false)
    (hgC : (g conn).currentRoomId ≠ some "") :
    Coherent ⟨aupd g conns c, aset rooms rid { room with sockets := setDel room.sockets c }⟩ := by
  obtain ⟨hA, hB, hC⟩ := hco
  refine ⟨?_, ?_, ?_⟩
  · intro rid' room' hr' m hm
    by_cases hrr : rid' = rid
    · subst hrr
      rw [alookup_aset_self] at hr'
      simp only [Option.some.injEq] at hr'
      subst hr'
      simp only at hm
      rw [mem_setDel] at hm
      obtain ⟨hm0, hmne⟩ := hm
      obtain ⟨mc, hmc, hmo, hmr⟩ := hA rid' room hroom m hm0
      refine ⟨mc, ?_, hmo, hmr⟩
      rw [alookup_aupd_ne _ _ _ _ hmne]
      exact hmc
    · rw [alookup_aset_ne _ _ _ _ hrr] at hr'
      obtain ⟨mc, hmc, hmo, hmr⟩ := hA rid' room' hr' m hm
      have hmc_ne : m ≠ c := by
        intro he
        subst he
        rw [hc] at hmc
        injection hmc with he'
        subst he'
        rw [hcur] at hmr
        injection hmr with he''
        exact hrr he''.symm
      refine ⟨mc, ?_, hmo, hmr⟩
      rw [alookup_aupd_ne _ _ _ _ hmc_ne]
      exact hmc
  · intro k conn' hk hopen' rid'' hrid''
    by_cases hkc : k = c
    · subst hkc
      rw [alookup_aupd_self, hc] at hk
      simp only [Option.map_some'] at hk
      injection hk with he
      subst he
      rcases hgB with hgB | hgB
      · rw [hgB] at hrid''
        cases hrid''
      · rw [hgB] at hopen'
        cases hopen'
    · rw [alookup_aupd_ne _ _ _ _ hkc] at hk
      obtain ⟨room'', hroom'', hkin⟩ := hB k conn' hk hopen' rid'' hrid''
      by_cases hrr : rid'' = rid
      · subst hrr
        rw [hroom] at hroom''
        injection hroom'' with he
        subst he
        refine ⟨{ room with sockets := setDel room.sockets c }, alookup_aset_self _ _ _, ?_⟩
        simp only
        rw [mem_setDel]
        exact ⟨hkin, hkc⟩
      · refine ⟨room'', ?_, hkin⟩
        rw [alookup_aset_ne _ _ _ _ hrr]
        exact hroom''
  · intro k conn' hk
    by_cases hkc : k = c
    · subst hkc
      rw [alookup_aupd_self, hc] at hk
      simp only [Option.map_some'] at hk
      injection hk with he
      subst he
      exact hgC
    · rw [alookup_aupd_ne _ _ _ _ hkc] at hk
      exact hC k conn' hk

theorem coherent_remove_del {conns : List (ConnRef × Conn)} {rooms : List (String × Room)}
    {c : ConnRef} {conn : Conn} {rid : String} {room : Room} (g : Conn → Conn)
    (hco : Coherent ⟨conns, rooms⟩)
    (hc : alookup conns c = some conn)
    (hcur : conn.currentRoomId = some rid)
    (hroom : alookup rooms rid = some room)
    (hnil : setDel room.sockets c = [])
    (hgB : (g conn).currentRoomId = none ∨ (g conn).isOpen = false)
    (hgC : (g conn).currentRoomId ≠ some "") :
    Coherent ⟨aupd g conns c, adel rooms rid⟩ := by
  obtain ⟨hA, hB, hC⟩ := hco
  refine ⟨?_, ?_, ?_⟩
  · intro rid' room' hr' m hm
    by_cases hrr : rid' = rid
    · subst hrr
      rw [alookup_adel_self] at hr'
      cases hr'
    · rw [alookup_adel_ne _ _ _ hrr] at hr'
      obtain ⟨mc, hmc, hmo, hmr⟩ := hA rid' room' hr' m hm
      have hmc_ne : m ≠ c := by
        intro he
        subst he
        rw [hc] at hmc
        injection hmc with he'
        subst he'
        rw [hcur] at hmr
        injection hmr with he''
        exact hrr he''.symm
      refine ⟨mc, ?_, hmo, hmr⟩
      rw [alookup_aupd_ne _ _ _ _ hmc_ne]
      exact hmc
  · intro k conn' hk hopen' rid'' hrid''
    by_cases hkc : k = c
    · subst hkc
      rw [alookup_aupd_self, hc] at hk
      simp only [Option.map_some'] at hk
      injection hk with he
      subst he
      rcases hgB with hgB | hgB
      · rw [hgB] at hrid''
        cases hrid''
      · rw [hgB] at hopen'
        cases hopen'
    · rw [alookup_aupd_ne _ _ _ _ hkc] at hk
      obtain ⟨room'', hroom'', hkin⟩ := hB k conn' hk hopen' rid'' hrid''
      by_cases hrr : rid'' = rid
      · subst hrr
        rw [hroom] at hroom''
        injection hroom'' with he
        subst he
        exfalso
        have : k ∈ setDel room.sockets c := by
          rw [mem_setDel]
          exact ⟨hkin, hkc⟩
        rw [hnil] at this
        cases this
      · refine ⟨room'', ?_, hkin⟩
        rw [alookup_adel_ne _ _ _ hrr]
        exact hroom''
  · intro k conn' hk
    by_cases hkc : k = c
    · subst hkc
      rw [alookup_aupd_self, hc] at hk
      simp only [Option.map_some'] at hk
      injection hk with he
      subst he
      exact hgC
    · rw [alookup_aupd_ne _ _ _ _ hkc] at hk
      exact hC k conn' hk

/-- The protocol discipline the spec's invariant implicitly assumes of
clients: create-room and join-room are only sent while not in any room
(and with a non-empty room id), and leave-room either omits the roomId
or names the sender's current room.  The server itself never checks any
of this. -/
def disciplinedMsg (conn : Conn) : ClientMsg → Bool
  | ClientMsg.createRoom roomId _ _ =>
      decide (conn.currentRoomId = none) && decide (roomId ≠ "")
  | ClientMsg.joinRoom roomId =>
      decide (conn.currentRoomId = none) && decide (roomId ≠ "")
  | ClientMsg.leaveRoom roomId =>
      decide (jsTruthy roomId = none) || decide (jsTruthy roomId = conn.currentRoomId)
  | _ => true

/-- Server states reachable when every client follows the discipline
above; transitions are otherwise exactly those of Reachable. -/
inductive DReachable : ServerState → Prop where
  | init : DReachable ⟨[], []⟩
  | connect (s : ServerState) (c : ConnRef) (wid : String) :
      DReachable s → alookup s.conns c = none →
      DReachable ⟨s.conns ++ [(c, initConn wid)], s.rooms⟩
  | message (s s' : ServerState) (c : ConnRef) (conn : Conn) (m : ClientMsg) (out : Outbox) :
      DReachable s → alookup s.conns c = some conn → conn.isOpen = true →
      disciplinedMsg conn m = true →
      handleMsg s c m = Except.ok (s', out) → DReachable s'
  | closeStep (s : ServerState) (c : ConnRef) (conn : Conn) :
      DReachable s → alookup s.conns c = some conn → conn.isOpen = true →
      DReachable (handleClose s c).1

theorem jsTruthy_jsOrOptOpt {a b : Option String}
    (hd : jsTruthy a = none ∨ jsTruthy a = b) :
    jsTruthy (jsOrOptOpt a b) = jsTruthy b := by
  unfold jsOrOptOpt
  rcases hd with hd | hd
  · rw [hd]
  · rw [hd]
    cases b with
    | none => rfl
    | some r => rfl

theorem coherent_handleMsg {s s' : ServerState} {c : ConnRef} {conn : Conn}
    {m : ClientMsg} {out : Outbox}
    (hco : Coherent s)
    (hc : alookup s.conns c = some conn)
    (hopen : conn.isOpen = true)
    (hd : disciplinedMsg conn m = true)
    (h : handleMsg s c m = Except.ok (s', out)) :
    Coherent s' := by
  obtain ⟨conns, rooms⟩ := s
  unfold handleMsg at h
  rw [hc] at h
  cases m with
  | listRooms tag =>
    dsimp only at h
    split at h
    · obtain ⟨rfl, -⟩ := ok_pair_inv h
      exact hco
    · split at h
      · exact Except.noConfusion h
      · obtain ⟨rfl, -⟩ := ok_pair_inv h
        exact hco
  | setName name =>
    dsimp only at h
    obtain ⟨rfl, -⟩ := ok_pair_inv h
    refine coherent_congr_conns ?_ hco
    refine agree_aupd _ ?_
    intro x
    dsimp only [connView]
  | createRoom roomId title tags =>
    simp only [disciplinedMsg, Bool.and_eq_true, decide_eq_true_eq] at hd
    obtain ⟨hcur, hrid⟩ := hd
    dsimp only at h
    obtain ⟨rfl, -⟩ := ok_pair_inv h
    cases hlook : alookup rooms roomId with
    | none =>
      refine coherent_enter (enterAsHost roomId) hco hc hopen hcur hrid
        (fun x => ⟨rfl, rfl⟩) ?_ ?_ ?_
      · intro mem hmem
        simp only [Option.getD_none] at hmem
        rw [mem_setAdd] at hmem
        rcases hmem with hmem | rfl
        · cases hmem
        · exact Or.inl rfl
      · intro r0 hr0
        rw [hlook] at hr0
        cases hr0
      · simp only [Option.getD_none]
        rw [mem_setAdd]
        exact Or.inr rfl
    | some r0 =>
      refine coherent_enter (enterAsHost roomId) hco hc hopen hcur hrid
        (fun x => ⟨rfl, rfl⟩) ?_ ?_ ?_
      · intro mem hmem
        simp only [Option.getD_some] at hmem
        rw [mem_setAdd] at hmem
        rcases hmem with hmem | rfl
        · exact Or.inr ⟨r0, hlook, hmem⟩
        · exact Or.inl rfl
      · intro r1 hr1
        rw [hlook] at hr1
        injection hr1 with he
        subst he
        intro mem hmem
        simp only [Option.getD_some]
        rw [mem_setAdd]
        exact Or.inl hmem
      · simp only [Option.getD_some]
        rw [mem_setAdd]
        exact Or.inr rfl
  | joinRoom roomId =>
    simp only [disciplinedMsg, Bool.and_eq_true, decide_eq_true_eq] at hd
    obtain ⟨hcur, hrid⟩ := hd
    dsimp only at h
    obtain ⟨rfl, -⟩ := ok_pair_inv h
    cases hlook : alookup rooms roomId with
    | none =>
      refine coherent_enter (enterAsListener roomId) hco hc hopen hcur hrid
        (fun x => ⟨rfl, rfl⟩) ?_ ?_ ?_
      · intro mem hmem
        simp only [Option.getD_none] at hmem
        rw [mem_setAdd] at hmem
        rcases hmem with hmem | rfl
        · cases hmem
        · exact Or.inl rfl
      · intro r0 hr0
        rw [hlook] at hr0
        cases hr0
      · simp only [Option.getD_none]
        rw [mem_setAdd]
        exact Or.inr rfl
    | some r0 =>
      refine coherent_enter (enterAsListener roomId) hco hc hopen hcur hrid
        (fun x => ⟨rfl, rfl⟩) ?_ ?_ ?_
      · intro mem hmem
        simp only [Option.getD_some] at hmem
        rw [mem_setAdd] at hmem
        rcases hmem with hmem | rfl
        · exact Or.inr ⟨r0, hlook, hmem⟩
        · exact Or.inl rfl
      · intro r1 hr1
        rw [hlook] at hr1
        injection hr1 with he
        subst he
        intro mem hmem
        simp only [Option.getD_some]
        rw [mem_setAdd]
        exact Or.inl hmem
      · simp only [Option.getD_some]
        rw [mem_setAdd]
        exact Or.inr rfl
  | leaveRoom roomId =>
    simp only [disciplinedMsg, Bool.or_eq_true, decide_eq_true_eq] at hd
    dsimp only at h
    rw [jsTruthy_jsOrOptOpt hd] at h
    cases hcur : conn.currentRoomId with
    | none =>
      rw [hcur] at h
      simp only [jsTruthy] at h
      obtain ⟨rfl, -⟩ := ok_pair_inv h
      refine coherent_detached_upd resetMembership hco hc hcur (Or.inl rfl) ?_
      intro he
      exact Option.noConfusion he
    | some rid =>
      have hne : rid ≠ "" := by
        have hc3 := hco.2.2 c conn hc
        rw [hcur] at hc3
        intro he
        subst he
        exact hc3 rfl
      rw [hcur] at h
      simp only [jsTruthy, if_neg hne] at h
      obtain ⟨room, hroom, hcin⟩ := hco.2.1 c conn hc hopen rid hcur
      dsimp only at hroom
      rw [hroom] at h
      dsimp only at h
      split at h
      · obtain ⟨rfl, -⟩ := ok_pair_inv h
        rename_i hnil
        refine coherent_remove_del resetMembership hco hc hcur hroom hnil (Or.inl rfl) ?_
        intro he
        exact Option.noConfusion he
      · obtain ⟨rfl, -⟩ := ok_pair_inv h
        refine coherent_remove_keep resetMembership hco hc hcur hroom (Or.inl rfl) ?_
        intro he
        exact Option.noConfusion he
  | raiseHand raised =>
    dsimp only at h
    split at h
    · obtain ⟨rfl, -⟩ := ok_pair_inv h
      exact hco
    · split at h
      · obtain ⟨rfl, -⟩ := ok_pair_inv h
        exact hco
      · obtain ⟨rfl, -⟩ := ok_pair_inv h
        refine coherent_congr_conns ?_ hco
        refine agree_aupd _ ?_
        intro x
        dsimp only [connView]
  | allowSpeak userId allowed =>
    dsimp only at h
    split at h
    · obtain ⟨rfl, -⟩ := ok_pair_inv h
      exact hco
    · split at h
      · obtain ⟨rfl, -⟩ := ok_pair_inv h
        exact hco
      · split at h
        · obtain ⟨rfl, -⟩ := ok_pair_inv h
          exact coherent_congr_conns (allowSpeakLoop_agree _ _ _ _ _) hco
        · obtain ⟨rfl, -⟩ := ok_pair_inv h
          exact hco
  | hostMuteAudio userId allowed =>
    dsimp only at h
    split at h
    · obtain ⟨rfl, -⟩ := ok_pair_inv h
      exact hco
    · split at h
      · obtain ⟨rfl, -⟩ := ok_pair_inv h
        exact hco
      · split at h
        · obtain ⟨rfl, -⟩ := ok_pair_inv h
          exact hco
        · obtain ⟨rfl, -⟩ := ok_pair_inv h
          exact hco
  | hostHideVideo userId allowed =>
    dsimp only at h
    split at h
    · obtain ⟨rfl, -⟩ := ok_pair_inv h
      exact hco
    · split at h
      · obtain ⟨rfl, -⟩ := ok_pair_inv h
        exact hco
      · split at h
        · obtain ⟨rfl, -⟩ := ok_pair_inv h
          exact hco
        · obtain ⟨rfl, -⟩ := ok_pair_inv h
          exact hco
  | chatMessage text name =>
    dsimp only at h
    split at h
    · obtain ⟨rfl, -⟩ := ok_pair_inv h
      exact hco
    · split at h
      · obtain ⟨rfl, -⟩ := ok_pair_inv h
        exact hco
      · obtain ⟨rfl, -⟩ := ok_pair_inv h
        exact hco
  | signal kind toId payload =>
    dsimp only at h
    split at h
    · obtain ⟨rfl, -⟩ := ok_pair_inv h
      exact hco
    · split at h
      · obtain ⟨rfl, -⟩ := ok_pair_inv h
        exact hco
      · obtain ⟨rfl, -⟩ := ok_pair_inv h
        exact hco

theorem coherent_handleClose {s : ServerState} {c : ConnRef} {conn : Conn}
    (hco : Coherent s)
    (hc : alookup s.conns c = some conn)
    (hopen : conn.isOpen = true) :
    Coherent (handleClose s c).1 := by
  obtain ⟨conns, rooms⟩ := s
  unfold handleClose
  rw [hc]
  dsimp only
  cases hcur : conn.currentRoomId with
  | none =>
    simp only [jsTruthy]
    refine coherent_detached_upd (fun x => { x with isOpen := false }) hco hc hcur ?_ ?_
    · exact Or.inr rfl
    · intro he
      have he2 : conn.currentRoomId = some "" := he
      rw [hcur] at he2
      exact Option.noConfusion he2
  | some rid =>
    have hne : rid ≠ "" := by
      have hc3 := hco.2.2 c conn hc
      rw [hcur] at hc3
      intro he
      subst he
      exact hc3 rfl
    simp only [jsTruthy, if_neg hne]
    obtain ⟨room, hroom, hcin⟩ := hco.2.1 c conn hc hopen rid hcur
    dsimp only at hroom
    rw [hroom]
    dsimp only
    have hgC : ((fun x : Conn => { x with isOpen := false }) conn).currentRoomId ≠ some "" := by
      intro he
      have he2 : conn.currentRoomId = some "" := he
      rw [hcur] at he2
      injection he2 with he3
      exact hne he3
    split
    · rename_i hnil
      exact coherent_remove_del _ hco hc hcur hroom hnil (Or.inr rfl) hgC
    · exact coherent_remove_keep _ hco hc hcur hroom (Or.inr rfl) hgC

theorem coherent_dreachable {s : ServerState} (h : DReachable s) : Coherent s := by
  induction h with
  | init =>
    refine ⟨?_, ?_, ?_⟩
    · intro rid room hr
      cases hr
    · intro c conn hc
      cases hc
    · intro c conn hc
      cases hc
  | connect s c wid _ hfresh ih =>
    obtain ⟨conns, rooms⟩ := s
    exact coherent_connect ih hfresh
  | message s s' c conn m out _ hc hopen hd hmsg ih =>
    exact coherent_handleMsg ih hc hopen hd hmsg
  | closeStep s c conn _ hc hopen ih =>
    exact coherent_handleClose ih hc hopen

/-- Connection 0 after create-room of "a" from a fresh connection. -/
def cxHostA : Conn :=
  { wid := "w0", role := Role.host, displayName := "Anonymous", handRaised := false,
    canSpeak := true, currentRoomId := some "a", isOpen := true }

/-- Connection 0 after a second create-room, of "b". -/
def cxHostB : Conn :=
  { wid := "w0", role := Role.host, displayName := "Anonymous", handRaised := false,
    canSpeak := true, currentRoomId := some "b", isOpen := true }

/-- State after: connect 0 (wire id w0). -/
def sA1 : ServerState := ⟨[(0, initConn "w0")], []⟩

/-- State after: connect 0; 0 sends create-room "a". -/
def sA2 : ServerState := ⟨[(0, cxHostA)], [("a", ⟨[0], "a", []⟩)]⟩

/-- State after: connect 0; 0 sends create-room "a"; 0 sends
create-room "b" without leaving "a". -/
def sA3 : ServerState :=
  ⟨[(0, cxHostB)], [("a", ⟨[0], "a", []⟩), ("b", ⟨[0], "b", []⟩)]⟩

theorem reach_sA1 : Reachable sA1 :=
  Reachable.connect ⟨[], []⟩ 0 "w0" Reachable.init rfl

theorem reach_sA2 : Reachable sA2 :=
  Reachable.message sA1 sA2 0 (initConn "w0") (ClientMsg.createRoom "a" none none)
    [(0, ServerMsg.createRoomAck "a" "a" [])] reach_sA1 (by decide) rfl (by decide)

theorem reach_sA3 : Reachable sA3 :=
  Reachable.message sA2 sA3 0 cxHostA (ClientMsg.createRoom "b" none none)
    [(0, ServerMsg.createRoomAck "b" "b" [])] reach_sA2 (by decide) rfl (by decide)

theorem dreach_sA1 : DReachable sA1 :=
  DReachable.connect ⟨[], []⟩ 0 "w0" DReachable.init rfl

theorem dreach_sA2 : DReachable sA2 :=
  DReachable.message sA1 sA2 0 (initConn "w0") (ClientMsg.createRoom "a" none none)
    [(0, ServerMsg.createRoomAck "a" "a" [])] dreach_sA1 (by decide) rfl (by decide) (by decide)

/-- C1 (amended): under the client discipline the spec assumes (create-room
and join-room only from a connection not currently in a room, with a
non-empty room id, and leave-room naming the current room or none), every
reachable state satisfies the membership invariant: each member of a
registered room is an open connection pointing back at exactly that room,
every open connection pointing at a room is listed in it, and consequently
a connection is a member of at most one registered room.  Without that
discipline the invariant fails (see the counterexample): the create-room
and join-room handlers do not remove the sender from its previous room. -/
theorem c1_membership_invariant_disciplined {s : ServerState} (h : DReachable s) :
    Coherent s ∧
    (∀ cr rid1 room1 rid2 room2,
      alookup s.rooms rid1 = some room1 → alookup s.rooms rid2 = some room2 →
      cr ∈ room1.sockets → cr ∈ room2.sockets → rid1 = rid2) := by
  have hco := coherent_dreachable h
  refine ⟨hco, ?_⟩
  intro cr rid1 room1 rid2 room2 h1 h2 hm1 hm2
  obtain ⟨mc1, hmc1, _, hp1⟩ := hco.1 rid1 room1 h1 cr hm1
  obtain ⟨mc2, hmc2, _, hp2⟩ := hco.1 rid2 room2 h2 cr hm2
  rw [hmc1] at hmc2
  injection hmc2 with he
  subst he
  exact Option.some.inj (hp1.symm.trans hp2)

/-- Witness for C1: the disciplined state reached by connect
followed by create-room "a" satisfies the invariant. -/
theorem c1_membership_invariant_disciplined_witness :
    Coherent sA2 ∧
    (∀ cr rid1 room1 rid2 room2,
      alookup sA2.rooms rid1 = some room1 → alookup sA2.rooms rid2 = some room2 →
      cr ∈ room1.sockets → cr ∈ room2.sockets → rid1 = rid2) :=
  c1_membership_invariant_disciplined dreach_sA2

/-- C1 counterexample: the state after connect 0, create-room "a",
create-room "b" is reachable; in it connection 0 is simultaneously a
member of the two distinct registry rooms "a" and "b", and its
currentRoomId is "b" while room "a" still lists it, refuting both the
at-most-one-room claim and the bidirectional-agreement claim, and in
particular refuting that a create-room from a connection already in a
different room removes it from the previous room. -/
theorem c1_counterexample :
    Reachable sA3 ∧
    alookup sA3.rooms "a" = some ⟨[0], "a", []⟩ ∧
    alookup sA3.rooms "b" = some ⟨[0], "b", []⟩ ∧
    (0 : ConnRef) ∈ (⟨[0], "a", []⟩ : Room).sockets ∧
    (0 : ConnRef) ∈ (⟨[0], "b", []⟩ : Room).sockets ∧
    ("a" : String) ≠ "b" ∧
    (alookup sA3.conns 0).map Conn.currentRoomId = some (some "b") :=
  ⟨reach_sA3, by decide, by decide, by decide, by decide, by decide, by decide⟩

/-- C2: in every reachable server state, every room present in the
registry has a non-empty member set: the operations that remove members
(leave-room and transport close) delete the room in the very step in
which its membership reaches zero, and rooms are only ever created with
the sender added immediately. -/
theorem c2_registry_rooms_nonempty {s : ServerState} (h : Reachable s) :
    ∀ rid room, alookup s.rooms rid = some room → room.sockets ≠ [] :=
  roomsNonempty_reachable h

/-- Witness for C2 at the reachable state with room "a". -/
theorem c2_registry_rooms_nonempty_witness :
    (⟨[0], "a", []⟩ : Room).sockets ≠ [] :=
  c2_registry_rooms_nonempty reach_sA2 "a" ⟨[0], "a", []⟩ (by decide)

/-- A host and a listener sharing room "r", used to instantiate the
per-operation theorems. -/
def cxHostR : Conn :=
  { wid := "h", role := Role.host, displayName := "Hana", handRaised := false,
    canSpeak := true, currentRoomId := some "r", isOpen := true }

def cxListenerR : Conn :=
  { wid := "l", role := Role.listener, displayName := "Lee", handRaised := false,
    canSpeak := false, currentRoomId := some "r", isOpen := true }

def sHL : ServerState := ⟨[(0, cxHostR), (1, cxListenerR)], [("r", ⟨[0, 1], "r", []⟩)]⟩

/-- C3: a connection whose role is listener gets its allow-speak,
host-mute-audio and host-hide-video envelopes dropped by the role guard:
the state is returned unchanged and no message is sent to anyone. -/
theorem c3_listener_host_ops_silent {s : ServerState} {c : ConnRef} {conn : Conn}
    (userId : String) (allowed : Bool)
    (hc : alookup s.conns c = some conn)
    (hrole : conn.role = Role.listener) :
    handleMsg s c (ClientMsg.allowSpeak userId allowed) = Except.ok (s, []) ∧
    handleMsg s c (ClientMsg.hostMuteAudio userId allowed) = Except.ok (s, []) ∧
    handleMsg s c (ClientMsg.hostHideVideo userId allowed) = Except.ok (s, []) := by
  have hne : ¬ conn.role = Role.host := by
    rw [hrole]
    intro he
    cases he
  refine ⟨?_, ?_, ?_⟩ <;> (
    unfold handleMsg
    rw [hc]
    dsimp only
    cases jsTruthy conn.currentRoomId with
    | none => rfl
    | some rid =>
      dsimp only
      cases alookup s.rooms rid with
      | none => rfl
      | some room =>
        dsimp only
        rw [if_neg hne])

/-- Witness for C3: the listener of sHL issuing the three host-only
operations changes nothing and nobody is messaged. -/
theorem c3_listener_host_ops_silent_witness :
    handleMsg sHL 1 (ClientMsg.allowSpeak "h" false) = Except.ok (sHL, []) ∧
    handleMsg sHL 1 (ClientMsg.hostMuteAudio "h" false) = Except.ok (sHL, []) ∧
    handleMsg sHL 1 (ClientMsg.hostHideVideo "h" false) = Except.ok (sHL, []) :=
  c3_listener_host_ops_silent "h" false
    (show alookup sHL.conns 1 = some cxListenerR by decide) rfl

/-- Connection and states for the C9 traces: a room whose stored tags
contain the number 7, and a room whose stored tags are all strings. -/
def sD1 : ServerState := ⟨[(0, initConn "w")], []⟩

def cxHostD : Conn :=
  { wid := "w", role := Role.host, displayName := "Anonymous", handRaised := false,
    canSpeak := true, currentRoomId := some "r", isOpen := true }

def sD2 : ServerState := ⟨[(0, cxHostD)], [("r", ⟨[0], "r", [JVal.jnum 7]⟩)]⟩

def cxHostE : Conn :=
  { wid := "w", role := Role.host, displayName := "Anonymous", handRaised := false,
    canSpeak := true, currentRoomId := some "q", isOpen := true }

def sE2 : ServerState := ⟨[(0, cxHostE)], [("q", ⟨[0], "q", [JVal.jstr "Pod"]⟩)]⟩

theorem reach_sD1 : Reachable sD1 :=
  Reachable.connect ⟨[], []⟩ 0 "w" Reachable.init rfl

theorem reach_sD2 : Reachable sD2 :=
  Reachable.message sD1 sD2 0 (initConn "w")
    (ClientMsg.createRoom "r" none (some [JVal.jnum 7]))
    [(0, ServerMsg.createRoomAck "r" "r" [JVal.jnum 7])]
    reach_sD1 (by decide) rfl (by decide)

theorem reach_sE2 : Reachable sE2 :=
  Reachable.message sD1 sE2 0 (initConn "w")
    (ClientMsg.createRoom "q" none (some [JVal.jstr "Pod"]))
    [(0, ServerMsg.createRoomAck "q" "q" [JVal.jstr "Pod"])]
    reach_sD1 (by decide) rfl (by decide)

/-- C9: create-room stores any array as tags without validating element
types (here the number 7 is stored); list-rooms with a tag filter then
calls toLowerCase on that stored tag and throws instead of replying.
The same request without a filter succeeds, and on a registry whose
stored tags are all strings the filtered request succeeds with the
case-insensitive match. -/
theorem c9_list_rooms_throws_on_nonstring_tag :
    Reachable sD2 ∧
    alookup sD2.rooms "r" = some ⟨[0], "r", [JVal.jnum 7]⟩ ∧
    handleMsg sD2 0 (ClientMsg.listRooms (some "x")) = Except.error () ∧
    handleMsg sD2 0 (ClientMsg.listRooms none) =
      Except.ok (sD2, [(0, ServerMsg.roomsList [⟨"r", "r", [JVal.jnum 7], 1⟩])]) ∧
    Reachable sE2 ∧
    handleMsg sE2 0 (ClientMsg.listRooms (some "POD")) =
      Except.ok (sE2, [(0, ServerMsg.roomsList [⟨"q", "q", [JVal.jstr "Pod"], 1⟩])]) :=
  ⟨reach_sD2, by decide, by decide, by decide, reach_sE2, by decide⟩

/-- The member set stored for a room id, empty when the room is not in
the registry. -/
def roomSockets (s : ServerState) (roomId : String) : List ConnRef :=
  match alookup s.rooms roomId with
  | some room => room.sockets
  | none => []

theorem getD_sockets_eq_roomSockets (s : ServerState) (roomId t : String) (tg : List JVal) :
    ((alookup s.rooms roomId).getD ⟨[], t, tg⟩).sockets = roomSockets s roomId := by
  unfold roomSockets
  cases alookup s.rooms roomId <;> rfl

/-- C5 (amended): create-room always adds the sender to the room stored
under roomId, sets the sender to role=host, canSpeak=true,
handRaised=false, currentRoomId=roomId, and acknowledges only the sender
with the roomId and the request-derived title (data.title || roomId) and
tags (data.tags when an array, else []).  When the room did not already
exist, the stored room is exactly ([sender], request title, request
tags), so the ack coincides with the room's stored metadata; when the
room already existed, the stored title and tags are kept and the ack
reflects the request instead (see the counterexample). -/
theorem c5_create_room_effects {s : ServerState} {c : ConnRef} {conn : Conn}
    (roomId : String) (title : Option String) (tags : Option (List JVal))
    (hc : alookup s.conns c = some conn) :
    ∃ room', handleMsg s c (ClientMsg.createRoom roomId title tags) =
        Except.ok (⟨aupd (enterAsHost roomId) s.conns c, aset s.rooms roomId room'⟩,
          [(c, ServerMsg.createRoomAck roomId (jsOrOpt title roomId) (tags.getD []))]) ∧
      c ∈ room'.sockets ∧
      alookup (aupd (enterAsHost roomId) s.conns c) c =
        some { conn with
                 currentRoomId := some roomId
                 role := Role.host
                 handRaised := false
                 canSpeak := true } ∧
      (alookup s.rooms roomId = none →
        room' = ⟨[c], jsOrOpt title roomId, tags.getD []⟩) := by
  unfold handleMsg
  rw [hc]
  dsimp only
  cases hlook : alookup s.rooms roomId with
  | none =>
    dsimp only [Option.getD_none]
    refine ⟨⟨setAdd [] c, jsOrOpt title roomId, tags.getD []⟩, rfl, ?_, ?_, ?_⟩
    · rw [mem_setAdd]
      exact Or.inr rfl
    · rw [alookup_aupd_self, hc]
      rfl
    · intro _
      simp [setAdd]
  | some r0 =>
    dsimp only [Option.getD_some]
    refine ⟨{ r0 with sockets := setAdd r0.sockets c }, rfl, ?_, ?_, ?_⟩
    · rw [mem_setAdd]
      exact Or.inr rfl
    · rw [alookup_aupd_self, hc]
      rfl
    · intro hnone
      cases hnone

/-- Witness for C5 at the fresh-room create of the first trace. -/
theorem c5_create_room_effects_witness :
    ∃ room', handleMsg sA1 0 (ClientMsg.createRoom "a" none none) =
        Except.ok (⟨aupd (enterAsHost "a") sA1.conns 0, aset sA1.rooms "a" room'⟩,
          [(0, ServerMsg.createRoomAck "a" (jsOrOpt none "a") (Option.getD none []))]) ∧
      (0 : ConnRef) ∈ room'.sockets ∧
      alookup (aupd (enterAsHost "a") sA1.conns 0) 0 =
        some { initConn "w0" with
                 currentRoomId := some "a"
                 role := Role.host
                 handRaised := false
                 canSpeak := true } ∧
      (alookup sA1.rooms "a" = none →
        room' = ⟨[0], jsOrOpt none "a", Option.getD none []⟩) :=
  c5_create_room_effects "a" none none
    (show alookup sA1.conns 0 = some (initConn "w0") by decide)

/-- States for the C5 counterexample: room "r" created with title "T1"
and tags ["a"], then a second connection re-creates "r" with title
"T2" and no tags array. -/
def cxHostC0 : Conn :=
  { wid := "h0", role := Role.host, displayName := "Anonymous", handRaised := false,
    canSpeak := true, currentRoomId := some "r", isOpen := true }

def cxHostC1 : Conn :=
  { wid := "h1", role := Role.host, displayName := "Anonymous", handRaised := false,
    canSpeak := true, currentRoomId := some "r", isOpen := true }

def sC1 : ServerState := ⟨[(0, initConn "h0")], []⟩

def sC2 : ServerState := ⟨[(0, cxHostC0)], [("r", ⟨[0], "T1", [JVal.jstr "a"]⟩)]⟩

def sC3 : ServerState :=
  ⟨[(0, cxHostC0), (1, initConn "h1")], [("r", ⟨[0], "T1", [JVal.jstr "a"]⟩)]⟩

def sC4 : ServerState :=
  ⟨[(0, cxHostC0), (1, cxHostC1)], [("r", ⟨[0, 1], "T1", [JVal.jstr "a"]⟩)]⟩

theorem reach_sC1 : Reachable sC1 :=
  Reachable.connect ⟨[], []⟩ 0 "h0" Reachable.init rfl

theorem reach_sC2 : Reachable sC2 :=
  Reachable.message sC1 sC2 0 (initConn "h0")
    (ClientMsg.createRoom "r" (some "T1") (some [JVal.jstr "a"]))
    [(0, ServerMsg.createRoomAck "r" "T1" [JVal.jstr "a"])]
    reach_sC1 (by decide) rfl (by decide)

theorem reach_sC3 : Reachable sC3 :=
  Reachable.connect sC2 1 "h1" reach_sC2 (by decide)

/-- C5 counterexample: re-creating the existing room "r" (stored title
"T1", stored tags ["a"]) with payload title "T2" and no tags acknowledges
the sender with title "T2" and tags [], not with the room's stored
metadata, which remains ("T1", ["a"]). -/
theorem c5_counterexample :
    Reachable sC3 ∧
    alookup sC3.rooms "r" = some ⟨[0], "T1", [JVal.jstr "a"]⟩ ∧
    handleMsg sC3 1 (ClientMsg.createRoom "r" (some "T2") none) =
      Except.ok (sC4, [(1, ServerMsg.createRoomAck "r" "T2" [])]) ∧
    alookup sC4.rooms "r" = some ⟨[0, 1], "T1", [JVal.jstr "a"]⟩ ∧
    ("T2" : String) ≠ "T1" ∧
    ([] : List JVal) ≠ [JVal.jstr "a"] :=
  ⟨reach_sC3, by decide, by decide, by decide, by decide, by decide⟩

/-- C4 (amended): the join-room reply sends the joining connection the
join-room ack followed by a room-peers snapshot computed from the room's
member set as it was before the sender is added, and this snapshot
contains no entry carrying the joining connection's wire id provided no
existing member carries that id — in particular whenever the sender was
not already a member and ids are distinct.  When the sender already is a
member (a re-join), the snapshot does contain the sender itself (see the
counterexample). -/
theorem c4_join_peer_snapshot {s : ServerState} {c : ConnRef} {conn : Conn}
    (roomId : String)
    (hc : alookup s.conns c = some conn) :
    (∃ s' rest,
      handleMsg s c (ClientMsg.joinRoom roomId) =
        Except.ok (s', (c, ServerMsg.joinRoomAck roomId)
          :: (c, ServerMsg.roomPeers (peersOf s.conns (roomSockets s roomId))) :: rest)) ∧
    ((∀ m ∈ roomSockets s roomId, memberWidIs s.conns m conn.wid = false) →
      ∀ p ∈ peersOf s.conns (roomSockets s roomId), p.pid ≠ conn.wid) := by
  constructor
  · unfold handleMsg
    rw [hc]
    dsimp only
    rw [getD_sockets_eq_roomSockets]
    exact ⟨_, _, rfl⟩
  · intro hno p hp
    unfold peersOf at hp
    rw [List.mem_filterMap] at hp
    obtain ⟨m, hm, hpm⟩ := hp
    cases hmc : alookup s.conns m with
    | none =>
      rw [hmc] at hpm
      cases hpm
    | some mc =>
      rw [hmc] at hpm
      simp only [Option.map_some'] at hpm
      injection hpm with he
      subst he
      have hw := hno m hm
      unfold memberWidIs at hw
      rw [hmc] at hw
      simp only [decide_eq_false_iff_not] at hw
      exact hw

/-- Witness for C4: connection 1 (wire id "h1") joining room "r" whose
only member has wire id "h0". -/
theorem c4_join_peer_snapshot_witness :
    (∃ s' rest,
      handleMsg sC3 1 (ClientMsg.joinRoom "r") =
        Except.ok (s', (1, ServerMsg.joinRoomAck "r")
          :: (1, ServerMsg.roomPeers (peersOf sC3.conns (roomSockets sC3 "r"))) :: rest)) ∧
    ((∀ m ∈ roomSockets sC3 "r", memberWidIs sC3.conns m (initConn "h1").wid = false) →
      ∀ p ∈ peersOf sC3.conns (roomSockets sC3 "r"), p.pid ≠ (initConn "h1").wid) :=
  c4_join_peer_snapshot "r" (show alookup sC3.conns 1 = some (initConn "h1") by decide)

/-- Connection 0 after re-joining its own room "a" as a listener. -/
def cxRejoin : Conn :=
  { wid := "w0", role := Role.listener, displayName := "Anonymous", handRaised := false,
    canSpeak := false, currentRoomId := some "a", isOpen := true }

def sA2r : ServerState := ⟨[(0, cxRejoin)], [("a", ⟨[0], "a", []⟩)]⟩

/-- C4 counterexample: connection 0 (wire id "w0"), already the sole
member of room "a", sends join-room "a"; the room-peers snapshot it
receives contains the entry with its own wire id "w0": the snapshot can
contain the joining connection itself. -/
theorem c4_counterexample :
    Reachable sA2 ∧
    (0 : ConnRef) ∈ roomSockets sA2 "a" ∧
    (alookup sA2.conns 0).map Conn.wid = some "w0" ∧
    handleMsg sA2 0 (ClientMsg.joinRoom "a") =
      Except.ok (sA2r,
        [(0, ServerMsg.joinRoomAck "a"),
         (0, ServerMsg.roomPeers [⟨"w0", "Anonymous"⟩])]) :=
  ⟨reach_sA2, by decide, by decide, by decide⟩

theorem memberWidIs_aupd_canSpeak (conns : List (ConnRef × Conn)) (t m : ConnRef)
    (allowed : Bool) (u : String) :
    memberWidIs (aupd (fun x => { x with canSpeak := allowed }) conns t) m u =
    memberWidIs conns m u := by
  unfold memberWidIs
  by_cases hm : m = t
  · subst hm
    rw [alookup_aupd_self]
    cases alookup conns m <;> rfl
  · rw [alookup_aupd_ne _ _ _ _ hm]

theorem allowSpeakLoop_nomatch (c : ConnRef) (u : String) (allowed : Bool)
    (ms : List ConnRef) (conns : List (ConnRef × Conn))
    (hno : ∀ m ∈ ms, memberWidIs conns m u = false) :
    allowSpeakLoop c u allowed ms conns = (conns, []) := by
  induction ms with
  | nil => rfl
  | cons m ms ih =>
    unfold allowSpeakLoop
    cases hmc : alookup conns m with
    | none =>
      dsimp only
      exact ih (fun x hx => hno x (List.mem_cons_of_mem _ hx))
    | some mc =>
      have hw := hno m (List.mem_cons_self _ _)
      unfold memberWidIs at hw
      rw [hmc] at hw
      simp only [decide_eq_false_iff_not] at hw
      dsimp only
      rw [if_neg (fun hcon => hw hcon.1)]
      exact ih (fun x hx => hno x (List.mem_cons_of_mem _ hx))

theorem allowSpeakLoop_single (c : ConnRef) (u : String) (allowed : Bool)
    (pre post : List ConnRef) (t : ConnRef) (tc : Conn)
    (conns : List (ConnRef × Conn))
    (htc : alookup conns t = some tc)
    (hwid : tc.wid = u) (hopen : tc.isOpen = true)
    (hpre : ∀ m ∈ pre, memberWidIs conns m u = false)
    (hpost : ∀ m ∈ post, memberWidIs conns m u = false) :
    allowSpeakLoop c u allowed (pre ++ t :: post) conns =
      (aupd (fun x => { x with canSpeak := allowed }) conns t,
       [(t, ServerMsg.speakPermission allowed),
        (c, ServerMsg.speakPermissionUpdated u allowed)]) := by
  revert hpre
  induction pre with
  | nil =>
    intro _
    simp only [List.nil_append]
    unfold allowSpeakLoop
    rw [htc]
    dsimp only
    rw [if_pos ⟨hwid, hopen⟩]
    have hpost' : ∀ m ∈ post,
        memberWidIs (aupd (fun x => { x with canSpeak := allowed }) conns t) m u = false := by
      intro m hm
      rw [memberWidIs_aupd_canSpeak]
      exact hpost m hm
    rw [allowSpeakLoop_nomatch c u allowed post _ hpost']
  | cons m pre ih =>
    intro hpre
    simp only [List.cons_append]
    unfold allowSpeakLoop
    cases hmc : alookup conns m with
    | none =>
      dsimp only
      exact ih (fun x hx => hpre x (List.mem_cons_of_mem _ hx))
    | some mc =>
      have hw := hpre m (List.mem_cons_self _ _)
      unfold memberWidIs at hw
      rw [hmc] at hw
      simp only [decide_eq_false_iff_not] at hw
      dsimp only
      rw [if_neg (fun hcon => hw hcon.1)]
      exact ih (fun x hx => hpre x (List.mem_cons_of_mem _ hx))

/-- C6: an allow-speak from a host in an existing room: when no member
carries the target id, the operation is a no-op with no message; when
exactly one member carries the target id and its socket is open, that
member's canSpeak is set to the requested boolean, the member is sent
speak-permission{allowed} and the host is sent
speak-permission-updated{userId,allowed}, in that order, and nothing
else changes. -/
theorem c6_allow_speak {s : ServerState} {c : ConnRef} {conn : Conn} {rid : String}
    {room : Room} (userId : String) (allowed : Bool)
    (hc : alookup s.conns c = some conn)
    (hrole : conn.role = Role.host)
    (hrid : jsTruthy conn.currentRoomId = some rid)
    (hroom : alookup s.rooms rid = some room) :
    ((∀ m ∈ room.sockets, memberWidIs s.conns m userId = false) →
      handleMsg s c (ClientMsg.allowSpeak userId allowed) = Except.ok (s, [])) ∧
    (∀ pre t post tc, room.sockets = pre ++ t :: post →
      alookup s.conns t = some tc → tc.wid = userId → tc.isOpen = true →
      (∀ m ∈ pre, memberWidIs s.conns m userId = false) →
      (∀ m ∈ post, memberWidIs s.conns m userId = false) →
      handleMsg s c (ClientMsg.allowSpeak userId allowed) =
        Except.ok ({ s with conns := aupd (fun x => { x with canSpeak := allowed }) s.conns t },
          [(t, ServerMsg.speakPermission allowed),
           (c, ServerMsg.speakPermissionUpdated userId allowed)])) := by
  constructor
  · intro hno
    unfold handleMsg
    rw [hc]
    dsimp only
    rw [hrid]
    dsimp only
    rw [hroom]
    dsimp only
    rw [if_pos hrole, allowSpeakLoop_nomatch c userId allowed room.sockets s.conns hno]
  · intro pre t post tc hsock htc hwid hto hpre hpost
    unfold handleMsg
    rw [hc]
    dsimp only
    rw [hrid]
    dsimp only
    rw [hroom]
    dsimp only
    rw [if_pos hrole, hsock,
      allowSpeakLoop_single c userId allowed pre post t tc s.conns htc hwid hto hpre hpost]

/-- Witness for C6: in sHL, the host (connection 0) grants speak
permission to the listener with wire id "l" (connection 1). -/
theorem c6_allow_speak_witness :
    handleMsg sHL 0 (ClientMsg.allowSpeak "l" true) =
      Except.ok ({ sHL with conns := aupd (fun x => { x with canSpeak := true }) sHL.conns 1 },
        [(1, ServerMsg.speakPermission true),
         (0, ServerMsg.speakPermissionUpdated "l" true)]) :=
  (c6_allow_speak "l" true (show alookup sHL.conns 0 = some cxHostR by decide) rfl
      (by decide) (show alookup sHL.rooms "r" = some ⟨[0, 1], "r", []⟩ by decide)).2
    [0] 1 [] cxListenerR (by decide) (by decide) rfl rfl (by decide) (by decide)

theorem memberHostOpen_aupd_handRaised (conns : List (ConnRef × Conn)) (c m : ConnRef)
    (b : Bool) :
    memberHostOpen (aupd (fun x => { x with handRaised := b }) conns c) m =
    memberHostOpen conns m := by
  unfold memberHostOpen
  by_cases hm : m = c
  · subst hm
    rw [alookup_aupd_self]
    cases alookup conns m <;> rfl
  · rw [alookup_aupd_ne _ _ _ _ hm]

/-- C7: a raise-hand from a connection in an existing room sets the
sender's handRaised flag to the requested boolean and sends
hand-updated{userId,raised} to exactly those members of the room that
resolve to an open socket with role host; no connection whose role is
listener receives anything. -/
theorem c7_raise_hand {s : ServerState} {c : ConnRef} {conn : Conn} {rid : String}
    {room : Room} (raised : Bool)
    (hc : alookup s.conns c = some conn)
    (hrid : jsTruthy conn.currentRoomId = some rid)
    (hroom : alookup s.rooms rid = some room) :
    ∃ out, handleMsg s c (ClientMsg.raiseHand raised) =
      Except.ok ({ s with
          conns := aupd (fun x => { x with handRaised := raised }) s.conns c }, out) ∧
      (∀ p ∈ out, p.2 = ServerMsg.handUpdated conn.wid raised ∧
        p.1 ∈ room.sockets ∧ memberHostOpen s.conns p.1 = true) ∧
      (∀ m ∈ room.sockets, memberHostOpen s.conns m = true →
        (m, ServerMsg.handUpdated conn.wid raised) ∈ out) ∧
      (∀ m mc, alookup s.conns m = some mc → mc.role = Role.listener →
        ∀ msg, (m, msg) ∉ out) := by
  refine ⟨room.sockets.filterMap (fun m =>
      if memberHostOpen (aupd (fun x => { x with handRaised := raised }) s.conns c) m = true
      then some (m, ServerMsg.handUpdated conn.wid raised) else none), ?_, ?_, ?_, ?_⟩
  · unfold handleMsg
    rw [hc]
    dsimp only
    rw [hrid]
    dsimp only
    rw [hroom]
  · intro p hp
    rw [List.mem_filterMap] at hp
    obtain ⟨m, hm, hpm⟩ := hp
    by_cases hcond : memberHostOpen
        (aupd (fun x => { x with handRaised := raised }) s.conns c) m = true
    · rw [if_pos hcond] at hpm
      injection hpm with he
      subst he
      refine ⟨rfl, hm, ?_⟩
      rw [← memberHostOpen_aupd_handRaised s.conns c m raised]
      exact hcond
    · rw [if_neg hcond] at hpm
      cases hpm
  · intro m hm hhost
    rw [List.mem_filterMap]
    have hcond : memberHostOpen
        (aupd (fun x => { x with handRaised := raised }) s.conns c) m = true := by
      rw [memberHostOpen_aupd_handRaised]
      exact hhost
    exact ⟨m, hm, by rw [if_pos hcond]⟩
  · intro m mc hmc hrole2 msg hmem
    rw [List.mem_filterMap] at hmem
    obtain ⟨m', hm', hpm⟩ := hmem
    by_cases hcond : memberHostOpen
        (aupd (fun x => { x with handRaised := raised }) s.conns c) m' = true
    · rw [if_pos hcond] at hpm
      injection hpm with he
      have hm'm : m' = m := congrArg Prod.fst he
      subst hm'm
      rw [memberHostOpen_aupd_handRaised] at hcond
      unfold memberHostOpen at hcond
      rw [hmc] at hcond
      simp only [Bool.and_eq_true, decide_eq_true_eq] at hcond
      rw [hrole2] at hcond
      exact absurd hcond.1 (by intro hx; cases hx)
    · rw [if_neg hcond] at hpm
      cases hpm

/-- Witness for C7: the listener of sHL raising a hand; only the host
(connection 0) qualifies for the hand-updated broadcast. -/
theorem c7_raise_hand_witness :
    ∃ out, handleMsg sHL 1 (ClientMsg.raiseHand true) =
      Except.ok ({ sHL with
          conns := aupd (fun x => { x with handRaised := true }) sHL.conns 1 }, out) ∧
      (∀ p ∈ out, p.2 = ServerMsg.handUpdated cxListenerR.wid true ∧
        p.1 ∈ (⟨[0, 1], "r", []⟩ : Room).sockets ∧ memberHostOpen sHL.conns p.1 = true) ∧
      (∀ m ∈ (⟨[0, 1], "r", []⟩ : Room).sockets, memberHostOpen sHL.conns m = true →
        (m, ServerMsg.handUpdated cxListenerR.wid true) ∈ out) ∧
      (∀ m mc, alookup sHL.conns m = some mc → mc.role = Role.listener →
        ∀ msg, (m, msg) ∉ out) :=
  c7_raise_hand true (show alookup sHL.conns 1 = some cxListenerR by decide)
    (by decide) (show alookup sHL.rooms "r" = some ⟨[0, 1], "r", []⟩ by decide)

theorem relayFilter_some {c : ConnRef} {conns : List (ConnRef × Conn)}
    {targetId : Option String} {kind : Nat} {wid payload : String} {m : ConnRef}
    {p : ConnRef × ServerMsg}
    (h : relayFilter c conns targetId kind wid payload m = some p) :
    p.1 = m ∧ m ≠ c ∧ memberOpen conns m = true ∧
    p.2 = ServerMsg.signalMsg kind wid payload ∧
    (∀ t, targetId = some t → memberWidIs conns m t = true) := by
  unfold relayFilter at h
  by_cases hmc : m = c
  · rw [if_pos hmc] at h
    cases h
  · rw [if_neg hmc] at h
    by_cases hop : memberOpen conns m = true
    · rw [if_pos hop] at h
      cases htid : targetId with
      | none =>
        rw [htid] at h
        dsimp only at h
        injection h with he
        subst he
        exact ⟨rfl, hmc, hop, rfl, fun t ht => by cases ht⟩
      | some t0 =>
        rw [htid] at h
        dsimp only at h
        by_cases hwid : memberWidIs conns m t0 = true
        · rw [if_pos hwid] at h
          injection h with he
          subst he
          refine ⟨rfl, hmc, hop, rfl, ?_⟩
          intro t ht
          injection ht with ht'
          rw [← ht']
          exact hwid
        · rw [if_neg hwid] at h
          cases h
    · rw [if_neg hop] at h
      cases h

theorem relayFilter_none_target (c : ConnRef) (conns : List (ConnRef × Conn))
    (kind : Nat) (wid payload : String) (m : ConnRef)
    (hmc : m ≠ c) (hop : memberOpen conns m = true) :
    relayFilter c conns none kind wid payload m =
      some (m, ServerMsg.signalMsg kind wid payload) := by
  unfold relayFilter
  rw [if_neg hmc, if_pos hop]

theorem relayFilter_some_target (c : ConnRef) (conns : List (ConnRef × Conn))
    (t : String) (kind : Nat) (wid payload : String) (m : ConnRef)
    (hmc : m ≠ c) (hop : memberOpen conns m = true)
    (hwid : memberWidIs conns m t = true) :
    relayFilter c conns (some t) kind wid payload m =
      some (m, ServerMsg.signalMsg kind wid payload) := by
  unfold relayFilter
  rw [if_neg hmc, if_pos hop]
  dsimp only
  rw [if_pos hwid]

/-- C8: an offer/answer/ice-candidate envelope from a connection in an
existing room changes no state; the relayed envelope carries the
sender's id and opaque payload; the sender never receives it; every
recipient is a room member; with a target id every recipient carries
that id, and every open member carrying it (other than the sender)
receives it; without a target id every open member except the sender
receives it. -/
theorem c8_signal_relay {s : ServerState} {c : ConnRef} {conn : Conn} {rid : String}
    {room : Room} (kind : Nat) (toId : Option String) (payload : String)
    (hc : alookup s.conns c = some conn)
    (hrid : jsTruthy conn.currentRoomId = some rid)
    (hroom : alookup s.rooms rid = some room) :
    ∃ out, handleMsg s c (ClientMsg.signal kind toId payload) = Except.ok (s, out) ∧
      (∀ msg, (c, msg) ∉ out) ∧
      (∀ p ∈ out, p.1 ∈ room.sockets ∧ p.2 = ServerMsg.signalMsg kind conn.wid payload) ∧
      (∀ t, jsTruthy toId = some t → ∀ p ∈ out, memberWidIs s.conns p.1 t = true) ∧
      (jsTruthy toId = none → ∀ m ∈ room.sockets, m ≠ c → memberOpen s.conns m = true →
        (m, ServerMsg.signalMsg kind conn.wid payload) ∈ out) ∧
      (∀ t, jsTruthy toId = some t → ∀ m ∈ room.sockets, m ≠ c →
        memberOpen s.conns m = true → memberWidIs s.conns m t = true →
        (m, ServerMsg.signalMsg kind conn.wid payload) ∈ out) := by
  refine ⟨room.sockets.filterMap
      (relayFilter c s.conns (jsTruthy toId) kind conn.wid payload),
    ?_, ?_, ?_, ?_, ?_, ?_⟩
  · unfold handleMsg
    rw [hc]
    dsimp only
    rw [hrid]
    dsimp only
    rw [hroom]
  · intro msg hmem
    rw [List.mem_filterMap] at hmem
    obtain ⟨m, hm, hpm⟩ := hmem
    obtain ⟨hfst, hne, -, -, -⟩ := relayFilter_some hpm
    exact hne hfst.symm
  · intro p hp
    rw [List.mem_filterMap] at hp
    obtain ⟨m, hm, hpm⟩ := hp
    obtain ⟨hfst, -, -, henv, -⟩ := relayFilter_some hpm
    rw [hfst]
    exact ⟨hm, henv⟩
  · intro t ht p hp
    rw [List.mem_filterMap] at hp
    obtain ⟨m, hm, hpm⟩ := hp
    obtain ⟨hfst, -, -, -, hwid⟩ := relayFilter_some hpm
    rw [hfst]
    exact hwid t ht
  · intro hnone m hm hne hop
    rw [List.mem_filterMap]
    refine ⟨m, hm, ?_⟩
    rw [hnone]
    exact relayFilter_none_target c s.conns kind conn.wid payload m hne hop
  · intro t ht m hm hne hop hwid
    rw [List.mem_filterMap]
    refine ⟨m, hm, ?_⟩
    rw [ht]
    exact relayFilter_some_target c s.conns t kind conn.wid payload m hne hop hwid

/-- Witness for C8: the host of sHL sends a targeted offer to the
member with wire id "l"; only connection 1 receives the relayed
envelope, the state is unchanged and the host gets nothing back. -/
theorem c8_signal_relay_witness :
    ∃ out, handleMsg sHL 0 (ClientMsg.signal 0 (some "l") "sdp") = Except.ok (sHL, out) ∧
      (∀ msg, ((0 : ConnRef), msg) ∉ out) ∧
      (∀ p ∈ out, p.1 ∈ (⟨[0, 1], "r", []⟩ : Room).sockets ∧
        p.2 = ServerMsg.signalMsg 0 cxHostR.wid "sdp") ∧
      (∀ t, jsTruthy (some "l") = some t → ∀ p ∈ out, memberWidIs sHL.conns p.1 t = true) ∧
      (jsTruthy (some "l") = none →
        ∀ m ∈ (⟨[0, 1], "r", []⟩ : Room).sockets, m ≠ 0 → memberOpen sHL.conns m = true →
        (m, ServerMsg.signalMsg 0 cxHostR.wid "sdp") ∈ out) ∧
      (∀ t, jsTruthy (some "l") = some t →
        ∀ m ∈ (⟨[0, 1], "r", []⟩ : Room).sockets, m ≠ 0 →
        memberOpen sHL.conns m = true → memberWidIs sHL.conns m t = true →
        (m, ServerMsg.signalMsg 0 cxHostR.wid "sdp") ∈ out) :=
  c8_signal_relay 0 (some "l") "sdp"
    (show alookup sHL.conns 0 = some cxHostR by decide) (by decide)
    (show alookup sHL.rooms "r" = some ⟨[0, 1], "r", []⟩ by decide)

/-- C10: a chat-message whose payload carries a non-empty name is
broadcast to every open member of the room with that payload name used
verbatim, whatever the sender's stored displayName and however long the
name is: the trimming and 40-character cap that set-name applies are
not applied.  For contrast, handling set-name with the same payload
stores the trimmed, capped variant in displayName. -/
theorem c10_chat_name_verbatim {s : ServerState} {c : ConnRef} {conn : Conn} {rid : String}
    {room : Room} (text nm : String) (hnm : nm ≠ "")
    (hc : alookup s.conns c = some conn)
    (hrid : jsTruthy conn.currentRoomId = some rid)
    (hroom : alookup s.rooms rid = some room) :
    handleMsg s c (ClientMsg.chatMessage text (some nm)) =
      Except.ok (s, broadcastList s.conns room.sockets (ServerMsg.chatMsg text nm)) ∧
    (∀ p ∈ broadcastList s.conns room.sockets (ServerMsg.chatMsg text nm),
      p.2 = ServerMsg.chatMsg text nm) ∧
    (∀ m ∈ room.sockets, memberOpen s.conns m = true →
      (m, ServerMsg.chatMsg text nm) ∈
        broadcastList s.conns room.sockets (ServerMsg.chatMsg text nm)) ∧
    (∃ s2 out2, handleMsg s c (ClientMsg.setName (some nm)) = Except.ok (s2, out2) ∧
      (alookup s2.conns c).map Conn.displayName =
        some (if strTake 40 (strTrim nm) = "" then "Anonymous" else strTake 40 (strTrim nm))) := by
  have hname : jsOrOpt (some nm) (jsOrStr conn.displayName "Anonymous") = nm := by
    unfold jsOrOpt jsOrStr
    dsimp only
    rw [if_neg hnm]
  refine ⟨?_, ?_, ?_, ?_⟩
  · unfold handleMsg
    rw [hc]
    dsimp only
    rw [hrid]
    dsimp only
    rw [hroom]
    dsimp only
    rw [hname]
  · intro p hp
    unfold broadcastList at hp
    rw [List.mem_filterMap] at hp
    obtain ⟨m, hm, hpm⟩ := hp
    by_cases hop : memberOpen s.conns m = true
    · rw [if_pos hop] at hpm
      injection hpm with he
      subst he
      rfl
    · rw [if_neg hop] at hpm
      cases hpm
  · intro m hm hop
    unfold broadcastList
    rw [List.mem_filterMap]
    exact ⟨m, hm, by rw [if_pos hop]⟩
  · refine ⟨{ s with conns := aupd (fun x => { x with displayName :=
        (if strTake 40 (strTrim ((some nm).getD "")) = "" then "Anonymous"
         else strTake 40 (strTrim ((some nm).getD ""))) }) s.conns c },
      broadcastList
        (aupd (fun x => { x with displayName :=
          (if strTake 40 (strTrim ((some nm).getD "")) = "" then "Anonymous"
           else strTake 40 (strTrim ((some nm).getD ""))) }) s.conns c)
        room.sockets
        (ServerMsg.nameUpdated conn.wid
          (if strTake 40 (strTrim ((some nm).getD "")) = "" then "Anonymous"
           else strTake 40 (strTrim ((some nm).getD "")))), ?_, ?_⟩
    · unfold handleMsg
      rw [hc]
      dsimp only
      rw [hrid]
      dsimp only
      rw [hroom]
    · dsimp only
      rw [alookup_aupd_self, hc]
      rfl

/-- Witness for C10: a 44-character payload name is broadcast verbatim
by chat-message from the host of sHL, while set-name would store its
40-character truncation, which differs from it. -/
theorem c10_chat_name_verbatim_witness :
    (handleMsg sHL 0
        (ClientMsg.chatMessage "hi" (some "0123456789abcdefghij0123456789abcdefghijXYZW")) =
      Except.ok (sHL, broadcastList sHL.conns (⟨[0, 1], "r", []⟩ : Room).sockets
        (ServerMsg.chatMsg "hi" "0123456789abcdefghij0123456789abcdefghijXYZW")) ∧
    (∀ p ∈ broadcastList sHL.conns (⟨[0, 1], "r", []⟩ : Room).sockets
        (ServerMsg.chatMsg "hi" "0123456789abcdefghij0123456789abcdefghijXYZW"),
      p.2 = ServerMsg.chatMsg "hi" "0123456789abcdefghij0123456789abcdefghijXYZW") ∧
    (∀ m ∈ (⟨[0, 1], "r", []⟩ : Room).sockets, memberOpen sHL.conns m = true →
      (m, ServerMsg.chatMsg "hi" "0123456789abcdefghij0123456789abcdefghijXYZW") ∈
        broadcastList sHL.conns (⟨[0, 1], "r", []⟩ : Room).sockets
          (ServerMsg.chatMsg "hi" "0123456789abcdefghij0123456789abcdefghijXYZW")) ∧
    (∃ s2 out2, handleMsg sHL 0
        (ClientMsg.setName (some "0123456789abcdefghij0123456789abcdefghijXYZW")) =
        Except.ok (s2, out2) ∧
      (alookup s2.conns 0).map Conn.displayName =
        some (if strTake 40 (strTrim "0123456789abcdefghij0123456789abcdefghijXYZW") = ""
          then "Anonymous"
          else strTake 40 (strTrim "0123456789abcdefghij0123456789abcdefghijXYZW")))) ∧
    strTake 40 (strTrim "0123456789abcdefghij0123456789abcdefghijXYZW") ≠
      "0123456789abcdefghij0123456789abcdefghijXYZW" :=
  ⟨c10_chat_name_verbatim "hi" "0123456789abcdefghij0123456789abcdefghijXYZW" (by decide)
      (show alookup sHL.conns 0 = some cxHostR by decide) (by decide)
      (show alookup sHL.rooms "r" = some ⟨[0, 1], "r", []⟩ by decide),
    by decide⟩
